import Mathlib

/-!
Verification of the matchbook order-book core: a shallow embedding in Lean 4
of the matching instruction (`src/program/src/instructions/match_orders.rs`),
its event queue, and the indexer's event cursor pipeline
(`src/indexer/src/events/cursor.rs`, `src/indexer/src/events/processor.rs`),
together with theorems settling the specified properties.

Machine integers (u8/u32/u64/u128) are embedded as `Nat` with explicit
saturation where the source uses `saturating_add`/`saturating_sub`; checked
arithmetic (`checked_mul`/`checked_div`) is embedded as `Option Nat`.
-/

/-- Maximum value of a `u8`. -/
def u8Max : Nat := 255

/-- Maximum value of a `u32`. -/
def u32Max : Nat := 4294967295

/-- Maximum value of a `u64`. -/
def u64Max : Nat := 18446744073709551615

/-- Rust `u8::saturating_add`. -/
def sadd8 (a b : Nat) : Nat := min (a + b) u8Max

/-- Rust `u32::saturating_add`. -/
def sadd32 (a b : Nat) : Nat := min (a + b) u32Max

/-- Rust `u64::saturating_add`. -/
def sadd64 (a b : Nat) : Nat := min (a + b) u64Max

/-- Rust `u64::checked_mul`: `None` when the product does not fit in 64 bits. -/
def checked_mul64 (a b : Nat) : Option Nat :=
  if a * b ≤ u64Max then some (a * b) else none

/-- Rust `u64::checked_div`: `None` on division by zero. -/
def checked_div64 (a b : Nat) : Option Nat :=
  if b = 0 then none else some (a / b)

/-!
## EventCursor (src/indexer/src/events/cursor.rs)

`EventCursor` tracks the last processed event sequence number for a market so
that replayed event windows are idempotent.
-/

/-- The `EventCursor` struct: head sequence number of the queue, last
processed sequence number, and a count of processed events (all `u64`). -/
structure EventCursor where
  headSeqNum : Nat
  lastProcessed : Nat
  eventsProcessed : Nat
deriving DecidableEq

/-- `EventCursor::new(head_seq_num)`. -/
def EventCursor.new (headSeqNum : Nat) : EventCursor :=
  { headSeqNum := headSeqNum, lastProcessed := 0, eventsProcessed := 0 }

/-- `EventCursor::should_process(seq_num)`: `seq_num > last_processed`. -/
def EventCursor.should_process (c : EventCursor) (seqNum : Nat) : Bool :=
  c.lastProcessed < seqNum

/-- `EventCursor::mark_processed(seq_num)`: updates `last_processed` and
saturating-increments `events_processed`, only when `seq_num > last_processed`. -/
def EventCursor.mark_processed (c : EventCursor) (seqNum : Nat) : EventCursor :=
  if c.lastProcessed < seqNum then
    { c with lastProcessed := seqNum, eventsProcessed := sadd64 c.eventsProcessed 1 }
  else c

/-- `EventCursor::update_head(head_seq_num)`. -/
def EventCursor.update_head (c : EventCursor) (headSeqNum : Nat) : EventCursor :=
  { c with headSeqNum := headSeqNum }

/-!
## EventProcessor batch processing (src/indexer/src/events/processor.rs)

`process_events` walks a batch of parsed events; event `i` of the batch has
sequence number `head_seq_num.saturating_add(i)`.  An event is skipped iff
`last_processed > 0 && seq_num <= last_processed`.  The per-market `HashMap`
entry is embedded as an `Option EventCursor` argument: `none` models a market
seen for the first time (`or_insert_with(EventCursor::new(head_seq_num))`).
The placeholder fill/out payloads built by `process_fill_event` /
`process_out_event` (always `Some`) are embedded as the `fills`/`outs`
counters of the result.
-/

/-- The `EventType` of a `ParsedEvent` (src/indexer, parser types). -/
inductive EventType where
  | fill : EventType
  | out : EventType
deriving DecidableEq

/-- Counters of a `ProcessingResult` (`fills`, `outs`, `skipped`,
`events_processed`, all `usize` counters incremented with plain `+= 1`). -/
structure ProcessingResult where
  fills : Nat
  outs : Nat
  skipped : Nat
  eventsProcessed : Nat
deriving DecidableEq

/-- `ProcessingResult::empty()`. -/
def ProcessingResult.empty : ProcessingResult :=
  { fills := 0, outs := 0, skipped := 0, eventsProcessed := 0 }

/-- The `for (i, event) in events.iter().enumerate()` loop body of
`process_events`: threads the local `last_processed` value and the
accumulated result; `i` is the enumeration index. -/
def processLoop (headSeqNum : Nat) :
    List EventType → Nat → Nat → ProcessingResult → ProcessingResult × Nat
  | [], _, lastProcessed, result => (result, lastProcessed)
  | e :: rest, i, lastProcessed, result =>
    let seqNum := sadd64 headSeqNum i
    if lastProcessed > 0 ∧ seqNum ≤ lastProcessed then
      processLoop headSeqNum rest (i + 1) lastProcessed
        { result with skipped := result.skipped + 1 }
    else
      let result1 :=
        match e with
        | EventType.fill => { result with fills := result.fills + 1 }
        | EventType.out => { result with outs := result.outs + 1 }
      processLoop headSeqNum rest (i + 1) seqNum
        { result1 with eventsProcessed := result1.eventsProcessed + 1 }

/-- `EventProcessor::process_events(market, events, head_seq_num, slot)` for a
single market: gets or creates the market's cursor, updates its head, runs the
batch loop, then writes the final `last_processed` and saturating-adds the
batch's `events_processed` into the cursor. -/
def process_events (cursor0 : Option EventCursor) (events : List EventType)
    (headSeqNum : Nat) : ProcessingResult × EventCursor :=
  let c0 := cursor0.getD (EventCursor.new headSeqNum)
  let c1 := c0.update_head headSeqNum
  let (result, lastProcessed) := processLoop headSeqNum events 0 c1.lastProcessed .empty
  let c2 := { c1 with
      lastProcessed := lastProcessed,
      eventsProcessed := sadd64 c1.eventsProcessed result.eventsProcessed }
  (result, c2)

/-!
## Program data model (src/program)

The on-chain state types (`Side`, `OutReason`, `FillEvent`, `OutEvent`,
`OrderId`, `SENTINEL`) live in the program's `state` module, which is not part
of the available sources; they are modelled from the spec (§3, §6) and from
their use sites in `match_orders.rs`.  Addresses (`Pubkey`) are embedded as
`Nat`.
-/

/-- Errors of `MatchbookError` (src/program/src/error.rs). -/
inductive MatchbookError where
  | MarketNotActive | MarketCancelOnly | InvalidMarketState | MarketClosed
  | InvalidTickSize | InvalidLotSize | OrderTooSmall | InvalidPrice
  | InvalidQuantity | InvalidSide | InvalidOrderType | InvalidTimeInForce
  | InvalidClientOrderId
  | InsufficientFunds | InsufficientFreeBalance | BalanceOverflow
  | InsufficientLockedBalance
  | OrderNotFound | NotOrderOwner | TooManyOrders | NoFreeOrderSlot
  | OrderAlreadyProcessed
  | PostOnlyWouldCross | FillOrKillNotFillable | SelfTradeError
  | NoMatchingOrders
  | ArithmeticOverflow | ArithmeticUnderflow | DivisionByZero | ConversionFailed
  | EventQueueFull | EventQueueEmpty | InvalidEvent
  | Unauthorized | InvalidAuthority | InvalidDelegate | MissingRequiredSigner
  | InvalidAccountData | AccountNotInitialized | AccountAlreadyInitialized
  | InvalidPda
deriving DecidableEq

/-- Modelled from the spec: order side (`Side` in the missing `state` module). -/
inductive Side where
  | bid : Side
  | ask : Side
deriving DecidableEq

/-- Modelled from the spec: `OutReason` of an `Out` event (§3:
`reason ∈ {Cancelled, Filled, Expired, Evicted, Unknown}`; the missing `state`
module declares it). -/
inductive OutReason where
  | cancelled : OutReason
  | filled : OutReason
  | expired : OutReason
  | evicted : OutReason
  | unknown : OutReason
deriving DecidableEq

/-- Modelled from the spec: `FillEvent` (§3 *Fill*; field set and order taken
from the writes in `push_fill_event`). -/
structure FillEvent where
  takerSide : Side
  maker : Nat
  makerOrderId : Nat
  makerClientOrderId : Nat
  taker : Nat
  takerOrderId : Nat
  takerClientOrderId : Nat
  price : Nat
  quantity : Nat
  takerFee : Nat
  makerRebate : Nat
deriving DecidableEq

/-- Modelled from the spec: `FillEvent::new`, a plain field constructor in the
argument order of the call site in the match handler. -/
def FillEvent.new (takerSide : Side) (maker makerOrderId makerClientOrderId
    taker takerOrderId takerClientOrderId price quantity takerFee
    makerRebate : Nat) : FillEvent :=
  { takerSide := takerSide, maker := maker, makerOrderId := makerOrderId,
    makerClientOrderId := makerClientOrderId, taker := taker,
    takerOrderId := takerOrderId, takerClientOrderId := takerClientOrderId,
    price := price, quantity := quantity, takerFee := takerFee,
    makerRebate := makerRebate }

/-- Modelled from the spec: `OutEvent` (§3 *Out*; field set and order taken
from the writes in `push_out_event`). -/
structure OutEvent where
  side : Side
  owner : Nat
  orderId : Nat
  clientOrderId : Nat
  baseReleased : Nat
  quoteReleased : Nat
  reason : OutReason
deriving DecidableEq

/-- Modelled from the spec: `OutEvent::new`, a plain field constructor in the
argument order of the call site in the match handler. -/
def OutEvent.new (side : Side) (owner orderId clientOrderId baseReleased
    quoteReleased : Nat) (reason : OutReason) : OutEvent :=
  { side := side, owner := owner, orderId := orderId,
    clientOrderId := clientOrderId, baseReleased := baseReleased,
    quoteReleased := quoteReleased, reason := reason }

/-- A record slot of the event queue: tag `1 = Fill`, tag `2 = Out`. -/
inductive QEvent where
  | fill : FillEvent → QEvent
  | out : OutEvent → QEvent
deriving DecidableEq

/-- Modelled from the spec: `SENTINEL`, the null slot index
(`root: u32 | SENTINEL`); embedded as `u32::MAX`. -/
def SENTINEL : Nat := u32Max

/-- Modelled from the spec: `OrderId::price` (§3 OrderKey: `price` is the high
64 bits of the 128-bit key, for both sides). -/
def priceOfKey (key : Nat) : Nat := key / 2 ^ 64

/-- Modelled from the spec: the insertion sequence of an ask-side OrderKey
(low 64 bits, stored directly). -/
def askSeqOfKey (key : Nat) : Nat := key % 2 ^ 64

/-- Modelled from the spec: the insertion sequence of a bid-side OrderKey
(low 64 bits, stored bitwise-complemented). -/
def bidSeqOfKey (key : Nat) : Nat := u64Max - key % 2 ^ 64

/-- Modelled from the spec: build an ask-side OrderKey from price and
insertion sequence. -/
def askKey (price seq : Nat) : Nat := price * 2 ^ 64 + seq

/-- Modelled from the spec: build a bid-side OrderKey from price and
insertion sequence (sequence complemented). -/
def bidKey (price seq : Nat) : Nat := price * 2 ^ 64 + (u64Max - seq)

/-!
## Event queue (`push_fill_event` / `push_out_event` in match_orders.rs)

The queue account's byte buffer is embedded as an `EventQueue` record: the
header fields `head`/`count` (u32) and `seq_num` (u64), the capacity derived
from the buffer size (`(data.len() - 128) / 160`), and the record region as a
total function from slot index to record.  The `InvalidAccountData` branches
of the source guard against truncated buffers and cannot fire on this
well-formed representation.
-/

/-- The event queue state: header fields, derived capacity, record slots. -/
structure EventQueue where
  head : Nat
  count : Nat
  seqNum : Nat
  capacity : Nat
  slots : Nat → QEvent

/-- Common body of `push_fill_event` and `push_out_event` (the two functions
in the source duplicate the same header logic verbatim): fails with
`EventQueueFull` when `capacity == 0 || count >= capacity`; otherwise writes
the record at `tail = (head + count) % capacity`, saturating-increments
`count` (u32) and `seq_num` (u64). -/
def pushRecord (q : EventQueue) (e : QEvent) : Except MatchbookError EventQueue :=
  if q.capacity = 0 ∨ q.capacity ≤ q.count then
    .error .EventQueueFull
  else
    let tail := (q.head + q.count) % q.capacity
    .ok { q with
      slots := fun i => if i = tail then e else q.slots i,
      count := sadd32 q.count 1,
      seqNum := sadd64 q.seqNum 1 }

/-- `push_fill_event(event_queue, event)`. -/
def push_fill_event (q : EventQueue) (e : FillEvent) : Except MatchbookError EventQueue :=
  pushRecord q (.fill e)

/-- `push_out_event(event_queue, event)`. -/
def push_out_event (q : EventQueue) (e : OutEvent) : Except MatchbookError EventQueue :=
  pushRecord q (.out e)

/-!
## Order book (PriceLevelIndex account, as read by match_orders.rs)

The book account's node arena is embedded as a list of tagged nodes plus the
header fields read and written by the matching code (`leaf_count`,
`free_list_head`, `root`).  The source classifies a slot purely by its tag
byte: `2` is a leaf, `3` a free node, anything else is treated as a non-leaf
(inner) slot; inner payloads are never read by the matching code.

All three scanning routines (`get_best_order`, `remove_order`,
`update_order_quantity`) visit only the first `leaf_count * 2` node slots,
stopping early at the end of the buffer.
-/

/-- One node slot of the book arena. -/
inductive Node where
  | inner : Node
  | leaf : (key : Nat) → (owner : Nat) → (quantity : Nat) → (clientOrderId : Nat) → Node
  | free : (next : Nat) → Node
deriving DecidableEq

/-- The book account state: header fields and node arena. -/
structure Book where
  leafCount : Nat
  freeListHead : Nat
  root : Nat
  nodes : List Node
deriving DecidableEq

/-- The data of one resting order (a leaf slot). -/
structure LeafData where
  key : Nat
  owner : Nat
  quantity : Nat
  clientOrderId : Nat
deriving DecidableEq

/-- Extract the leaf payload of a node slot, if its tag is `2`. -/
def Node.toLeaf : Node → Option LeafData
  | .leaf k o q c => some ⟨k, o, q, c⟩
  | _ => none

/-- All resting leaves of a book, in slot order. -/
def bookLeaves (b : Book) : List LeafData :=
  b.nodes.filterMap Node.toLeaf

/-- The leaves among the first `leaf_count * 2` slots — the only ones any of
the scanning routines can see. -/
def scannedLeaves (b : Book) : List LeafData :=
  (b.nodes.take (2 * b.leafCount)).filterMap Node.toLeaf

/-- `BestOrderInfo`: `(order_id, price, quantity, owner, client_order_id)`. -/
structure BestOrderInfo where
  key : Nat
  price : Nat
  quantity : Nat
  owner : Nat
  clientOrderId : Nat
deriving DecidableEq

/-- The `is_better` comparison of `get_best_order`: for bids a strictly
higher key wins, for asks a strictly lower key wins. -/
def betterKey (isBids : Bool) (key current : Nat) : Bool :=
  if isBids then current < key else key < current

/-- One scan step of `get_best_order`: non-leaf slots are skipped, a leaf
replaces the running best iff `is_better`. -/
def bestStep (isBids : Bool) (acc : Option LeafData) (n : Node) : Option LeafData :=
  match n.toLeaf with
  | none => acc
  | some l =>
    match acc with
    | none => some l
    | some b => if betterKey isBids l.key b.key then some l else some b

/-- `get_best_order(book_account, is_bids)`: returns `None` when
`leaf_count == 0` or `root == SENTINEL`; otherwise linearly scans the first
`leaf_count * 2` slots for the extreme-key leaf and decodes its price. -/
def get_best_order (b : Book) (isBids : Bool) : Option BestOrderInfo :=
  if b.leafCount = 0 then none
  else if b.root = SENTINEL then none
  else
    match (b.nodes.take (2 * b.leafCount)).foldl (bestStep isBids) none with
    | none => none
    | some l => some ⟨l.key, priceOfKey l.key, l.quantity, l.owner, l.clientOrderId⟩

/-- The slot index of the first leaf with the given key among the first
`leaf_count * 2` slots. -/
def findLeafIdx (b : Book) (orderId : Nat) : Option Nat :=
  (b.nodes.take (2 * b.leafCount)).findIdx?
    (fun n => match n.toLeaf with
      | some l => l.key == orderId
      | none => false)

/-- `remove_order(book_account, order_id)`: finds the leaf by key in the first
`leaf_count * 2` slots, turns its slot into a free node pointing at the old
`free_list_head`, makes it the new `free_list_head`, saturating-decrements
`leaf_count`, and resets `root` to `SENTINEL` when the book becomes empty;
`OrderNotFound` when the scan misses. -/
def remove_order (b : Book) (orderId : Nat) : Except MatchbookError Book :=
  match findLeafIdx b orderId with
  | none => .error .OrderNotFound
  | some i =>
    let newCount := b.leafCount - 1
    .ok { b with
      nodes := b.nodes.set i (.free b.freeListHead),
      freeListHead := i,
      leafCount := newCount,
      root := if newCount = 0 then SENTINEL else b.root }

/-- `update_order_quantity(book_account, order_id, new_quantity)`: finds the
leaf by key in the first `leaf_count * 2` slots and rewrites its quantity in
place; `OrderNotFound` when the scan misses. -/
def update_order_quantity (b : Book) (orderId newQuantity : Nat) :
    Except MatchbookError Book :=
  match findLeafIdx b orderId with
  | none => .error .OrderNotFound
  | some i =>
    match b.nodes.get? i with
    | some (.leaf k o _ c) => .ok { b with nodes := b.nodes.set i (.leaf k o newQuantity c) }
    | _ => .error .OrderNotFound

/-!
## Market and fee computation (match_orders.rs handler)
-/

/-- Modelled from the spec: market status (§3 `status`; only `is_active` is
observed by the matching code). -/
inductive MarketStatus where
  | active : MarketStatus
  | paused : MarketStatus
  | closed : MarketStatus
deriving DecidableEq

/-- The market fields read by the matching code (`base_lot_size`,
`quote_lot_size` u64; `taker_fee_bps` unsigned; `maker_fee_bps` signed). -/
structure Market where
  baseLotSize : Nat
  quoteLotSize : Nat
  takerFeeBps : Nat
  makerFeeBps : Int
  status : MarketStatus
deriving DecidableEq

/-- Modelled from the spec: `Market::is_active()`. -/
def Market.is_active (m : Market) : Bool :=
  m.status == MarketStatus.active

/-- The handler's notional computation:
`quantity.checked_mul(price).and_then(mul quote_lot_size).and_then(div base_lot_size).unwrap_or(0)`. -/
def notionalOf (m : Market) (quantity price : Nat) : Nat :=
  (((checked_mul64 quantity price).bind
      (fun v => checked_mul64 v m.quoteLotSize)).bind
      (fun v => checked_div64 v m.baseLotSize)).getD 0

/-- The handler's taker fee:
`notional.checked_mul(taker_fee_bps).and_then(div 10_000).unwrap_or(0)`. -/
def takerFeeOf (m : Market) (notional : Nat) : Nat :=
  ((checked_mul64 notional m.takerFeeBps).bind
      (fun v => checked_div64 v 10000)).getD 0

/-- The handler's maker rebate: only a negative `maker_fee_bps` produces a
rebate, computed from its absolute value; otherwise `0`. -/
def makerRebateOf (m : Market) (notional : Nat) : Nat :=
  if m.makerFeeBps < 0 then
    ((checked_mul64 notional m.makerFeeBps.natAbs).bind
        (fun v => checked_div64 v 10000)).getD 0
  else 0

/-!
## Matching (find_match and the handler loop)
-/

/-- `MatchResult` of a single match. -/
structure MatchResult where
  price : Nat
  quantity : Nat
  bidOrderId : Nat
  bidOwner : Nat
  bidClientOrderId : Nat
  bidRemaining : Nat
  askOrderId : Nat
  askOwner : Nat
  askClientOrderId : Nat
  askRemaining : Nat
deriving DecidableEq

/-- `find_match(bids, asks, base_lot_size, quote_lot_size)`: best bid and
best ask, no match when either is missing or `bid_price < ask_price`;
otherwise matches `min(bid_quantity, ask_quantity)` at the ask's price.
The source's `Result` wrapper only transports byte-layout errors of
`get_best_order`, which the abstract book cannot produce, and its computed
`_base_amount` is unused; both are dropped here. -/
def find_match (bids asks : Book) (base_lot_size quote_lot_size : Nat) :
    Option MatchResult :=
  match get_best_order bids true with
  | none => none
  | some bb =>
    match get_best_order asks false with
    | none => none
    | some ba =>
      if bb.price < ba.price then none
      else
        let match_quantity := min bb.quantity ba.quantity
        some { price := ba.price,
               quantity := match_quantity,
               bidOrderId := bb.key, bidOwner := bb.owner,
               bidClientOrderId := bb.clientOrderId,
               bidRemaining := bb.quantity - match_quantity,
               askOrderId := ba.key, askOwner := ba.owner,
               askClientOrderId := ba.clientOrderId,
               askRemaining := ba.quantity - match_quantity }

/-- The bid-side settlement of one match: a fully filled bid is removed and an
`Out{Filled}` event is pushed with `let _ = push_out_event(..)` — a push
failure is discarded and the queue left as it was; a partially filled bid gets
its quantity rewritten. -/
def settleBid (bids : Book) (q : EventQueue) (r : MatchResult) :
    Except MatchbookError (Book × EventQueue) :=
  if r.bidRemaining = 0 then
    match remove_order bids r.bidOrderId with
    | .error e => .error e
    | .ok bids1 =>
      match push_out_event q (OutEvent.new Side.bid r.bidOwner r.bidOrderId
          r.bidClientOrderId 0 0 OutReason.filled) with
      | .ok q1 => .ok (bids1, q1)
      | .error _ => .ok (bids1, q)
  else
    match update_order_quantity bids r.bidOrderId r.bidRemaining with
    | .error e => .error e
    | .ok bids1 => .ok (bids1, q)

/-- The ask-side settlement of one match, symmetric to `settleBid`. -/
def settleAsk (asks : Book) (q : EventQueue) (r : MatchResult) :
    Except MatchbookError (Book × EventQueue) :=
  if r.askRemaining = 0 then
    match remove_order asks r.askOrderId with
    | .error e => .error e
    | .ok asks1 =>
      match push_out_event q (OutEvent.new Side.ask r.askOwner r.askOrderId
          r.askClientOrderId 0 0 OutReason.filled) with
      | .ok q1 => .ok (asks1, q1)
      | .error _ => .ok (asks1, q)
  else
    match update_order_quantity asks r.askOrderId r.askRemaining with
    | .error e => .error e
    | .ok asks1 => .ok (asks1, q)

/-- The book mutation of the bid side of one match: remove when fully filled,
otherwise rewrite the quantity. -/
def bidBookStep (bids : Book) (r : MatchResult) : Except MatchbookError Book :=
  if r.bidRemaining = 0 then remove_order bids r.bidOrderId
  else update_order_quantity bids r.bidOrderId r.bidRemaining

/-- The book mutation of the ask side of one match: remove when fully filled,
otherwise rewrite the quantity. -/
def askBookStep (asks : Book) (r : MatchResult) : Except MatchbookError Book :=
  if r.askRemaining = 0 then remove_order asks r.askOrderId
  else update_order_quantity asks r.askOrderId r.askRemaining

/-- The fill event built by one handler iteration from a match result and the
computed fees (the taker side is hard-coded to `Ask`). -/
def fillOf (m : Market) (r : MatchResult) : FillEvent :=
  let notional := notionalOf m r.quantity r.price
  FillEvent.new Side.ask r.bidOwner r.bidOrderId r.bidClientOrderId
    r.askOwner r.askOrderId r.askClientOrderId r.price r.quantity
    (takerFeeOf m notional) (makerRebateOf m notional)

/-- The `for _ in 0..params.limit` loop of the handler: each iteration looks
for a match, computes fees, pushes the fill event (propagating its failure),
settles both sides (propagating remove/update failures, discarding out-push
failures), and saturating-increments the u8 match counter. -/
def matchLoop (m : Market) :
    Nat → Book → Book → EventQueue → Nat →
    Except MatchbookError (Nat × Book × Book × EventQueue)
  | 0, bids, asks, q, cnt => .ok (cnt, bids, asks, q)
  | Nat.succ l, bids, asks, q, cnt =>
    match find_match bids asks m.baseLotSize m.quoteLotSize with
    | none => .ok (cnt, bids, asks, q)
    | some r =>
      match push_fill_event q (fillOf m r) with
      | .error e => .error e
      | .ok q1 =>
        match settleBid bids q1 r with
        | .error e => .error e
        | .ok (bids1, q2) =>
          match settleAsk asks q2 r with
          | .error e => .error e
          | .ok (asks1, q3) =>
            matchLoop m l bids1 asks1 q3 (sadd8 cnt 1)

/-- The `MatchOrders` handler: validates `limit > 0` (`InvalidQuantity`
otherwise), requires an active market (`MarketNotActive` otherwise), then runs
the match loop and returns the number of matches executed together with the
final account states. -/
def handler (m : Market) (bids asks : Book) (q : EventQueue) (limit : Nat) :
    Except MatchbookError (Nat × Book × Book × EventQueue) :=
  if limit = 0 then .error .InvalidQuantity
  else if ¬ m.is_active then .error .MarketNotActive
  else matchLoop m limit bids asks q 0

/-!
## Crossable-pair counting

`crossable_pairs` is the queue-free, fee-free fixpoint of the handler's own
find/settle iteration: how many matches the engine executes when `limit` does
not bind.  Fuel `bids.leafCount + asks.leafCount` suffices because every
executed match fully fills (and removes) at least one side.
-/

/-- The book mutations of one match, without the event queue: remove a fully
filled side, rewrite the quantity of a partially filled side; `none` when a
remove/update fails. -/
def settleBooks (bids asks : Book) (r : MatchResult) : Option (Book × Book) :=
  match (if r.bidRemaining = 0 then remove_order bids r.bidOrderId
         else update_order_quantity bids r.bidOrderId r.bidRemaining) with
  | .error _ => none
  | .ok bids1 =>
    match (if r.askRemaining = 0 then remove_order asks r.askOrderId
           else update_order_quantity asks r.askOrderId r.askRemaining) with
    | .error _ => none
    | .ok asks1 => some (bids1, asks1)

/-- Fueled iteration of find/settle, counting executed matches. -/
def crossablePairsAux (m : Market) : Nat → Book → Book → Nat
  | 0, _, _ => 0
  | Nat.succ fuel, bids, asks =>
    match find_match bids asks m.baseLotSize m.quoteLotSize with
    | none => 0
    | some r =>
      match settleBooks bids asks r with
      | none => 0
      | some (bids1, asks1) => crossablePairsAux m fuel bids1 asks1 + 1

/-- The number of crossable pairs the engine can execute on the given books. -/
def crossable_pairs (m : Market) (bids asks : Book) : Nat :=
  crossablePairsAux m (bids.leafCount + asks.leafCount) bids asks

/-!
## Observation helpers for concrete runs
-/

/-- The match count of a handler result, when it succeeded. -/
def runMatches (r : Except MatchbookError (Nat × Book × Book × EventQueue)) :
    Option Nat :=
  r.toOption.map (fun x => x.1)

/-- Summary of a successful handler result: match count, remaining bid and
ask leaf counts, final queue `count` and `seq_num`. -/
def runSummary (r : Except MatchbookError (Nat × Book × Book × EventQueue)) :
    Option (Nat × Nat × Nat × Nat × Nat) :=
  r.toOption.map (fun x =>
    (x.1, x.2.1.leafCount, x.2.2.1.leafCount, x.2.2.2.count, x.2.2.2.seqNum))

/-- The record at a given queue slot of a successful handler result. -/
def runSlot (r : Except MatchbookError (Nat × Book × Book × EventQueue))
    (i : Nat) : Option QEvent :=
  r.toOption.map (fun x => x.2.2.2.slots i)

/-- An event record the matching loop is allowed to have written: any fill, or
an out event with zero released balances and reason `Filled`. -/
def emittedOutOk : QEvent → Bool
  | .fill _ => true
  | .out o =>
    o.baseReleased == 0 && o.quoteReleased == 0 && o.reason == OutReason.filled

/-!
## Concrete fixtures
-/

/-- A placeholder queue record for unwritten slots. -/
def qDummy : QEvent := QEvent.out (OutEvent.new Side.bid 0 0 0 0 0 OutReason.unknown)

/-- An empty event queue of the given capacity. -/
def mkQueue (cap : Nat) : EventQueue := ⟨0, 0, 0, cap, fun _ => qDummy⟩

/-- An active market with unit lot sizes and zero fees. -/
def mkt1 : Market := ⟨1, 1, 0, 0, MarketStatus.active⟩

/-- An active market with a zero base lot size and a 100 bps taker fee. -/
def mkt0 : Market := ⟨0, 1, 100, 0, MarketStatus.active⟩

/-- A bid book with one resting order: price 1000, insertion sequence 5,
owner 11, quantity 4, client order id 1. -/
def bBook1 : Book := ⟨1, SENTINEL, 0, [Node.leaf (bidKey 1000 5) 11 4 1]⟩

/-- An ask book with one resting order: price 900, insertion sequence 7,
owner 22, quantity 4, client order id 2. -/
def aBook1 : Book := ⟨1, SENTINEL, 0, [Node.leaf (askKey 900 7) 22 4 2]⟩

/-- A bid book whose single resting order (price 1000) sits at slot 2, beyond
the `leaf_count * 2 = 2` slots the scanning routines visit. -/
def bBookCex : Book :=
  ⟨1, SENTINEL, 0, [Node.free 0, Node.free 0, Node.leaf (bidKey 1000 5) 11 4 1]⟩

/-- A bid book with two resting orders at prices 900 and 1000. -/
def bBook2 : Book :=
  ⟨2, SENTINEL, 0, [Node.leaf (bidKey 900 1) 7 3 1, Node.leaf (bidKey 1000 2) 8 4 2]⟩

/-- A full event queue: one slot of capacity, one record counted. -/
def fullQueue : EventQueue := ⟨0, 1, 1, 1, fun _ => qDummy⟩

/-- A capacity-1 queue whose `seq_num` sits at the u64 maximum. -/
def qMaxSeq : EventQueue := ⟨0, 0, u64Max, 1, fun _ => qDummy⟩

/-- A trivial fill event. -/
def fill0 : FillEvent := FillEvent.new Side.ask 0 0 0 0 0 0 0 0 0 0

/-- A trivial out event. -/
def out0 : OutEvent := OutEvent.new Side.bid 0 0 0 0 0 OutReason.unknown

/-- A default handler state used when projecting successful runs. -/
def dfltState : Nat × Book × Book × EventQueue := (0, bBook1, aBook1, mkQueue 10)

/-!
## Claim C9 — EventCursor.mark_processed
-/

/-- C9 counterexample: on a cursor whose `events_processed` sits at the u64
maximum, `mark_processed(5)` (with `5 > last_processed = 0`) updates
`last_processed` but leaves `events_processed` unchanged — `saturating_add`
does not increment it by exactly 1. -/
theorem C9_counterexample :
    (EventCursor.mk 0 0 u64Max).lastProcessed < 5 ∧
    ((EventCursor.mk 0 0 u64Max).mark_processed 5).lastProcessed = 5 ∧
    ((EventCursor.mk 0 0 u64Max).mark_processed 5).eventsProcessed =
      (EventCursor.mk 0 0 u64Max).eventsProcessed := by decide

/-- C9 (amended): `mark_processed(seq_num)` sets `last_processed = seq_num`
and saturating-increments `events_processed` (by exactly 1 whenever it is
below the u64 maximum) if `seq_num > last_processed`; otherwise it leaves the
cursor unchanged without an error; `last_processed` never decreases. -/
theorem C9_mark_processed_amended (c : EventCursor) (s : Nat) :
    (c.lastProcessed < s →
      (c.mark_processed s).lastProcessed = s ∧
      (c.mark_processed s).eventsProcessed = min (c.eventsProcessed + 1) u64Max ∧
      (c.eventsProcessed < u64Max →
        (c.mark_processed s).eventsProcessed = c.eventsProcessed + 1)) ∧
    (s ≤ c.lastProcessed → c.mark_processed s = c) ∧
    c.lastProcessed ≤ (c.mark_processed s).lastProcessed := by
  unfold EventCursor.mark_processed sadd64
  by_cases h : c.lastProcessed < s
  · rw [if_pos h]
    refine ⟨fun _ => ⟨rfl, rfl, fun hev => ?_⟩, fun hle => absurd h (by omega), le_of_lt h⟩
    show min (c.eventsProcessed + 1) u64Max = c.eventsProcessed + 1
    omega
  · rw [if_neg h]
    exact ⟨fun hlt => absurd hlt h, fun _ => rfl, le_refl _⟩

/-- C9 witness: a concrete in-range cursor where the increment is exact. -/
theorem C9_witness :
    ((EventCursor.mk 0 3 7).mark_processed 5).lastProcessed = 5 ∧
    ((EventCursor.mk 0 3 7).mark_processed 5).eventsProcessed = 7 + 1 := by
  have h := C9_mark_processed_amended (EventCursor.mk 0 3 7) 5
  exact ⟨(h.1 (by decide)).1, (h.1 (by decide)).2.2 (by decide)⟩

/-!
## Claim C4 — idempotent reprocessing through process_events
-/

/-- C4 counterexample: with `last_processed = 0`, re-feeding an event with
sequence number `0 ≤ 0` is *not* a no-op: the skip guard
`last_processed > 0 && seq_num <= last_processed` is false, so the event is
reprocessed — `skipped` stays 0 and `events_processed` grows. -/
theorem C4_counterexample :
    (process_events (some (EventCursor.mk 0 0 0)) [EventType.fill] 0).1.skipped = 0 ∧
    (process_events (some (EventCursor.mk 0 0 0)) [EventType.fill] 0).1.eventsProcessed = 1 ∧
    (process_events (some (EventCursor.mk 0 0 0)) [EventType.fill] 0).2.eventsProcessed = 1 := by
  decide

/-- Helper: a batch whose sequence numbers all lie at or below a positive
`last_processed` is skipped wholesale by the processing loop. -/
theorem processLoop_all_skipped (head lastP : Nat) (hpos : 0 < lastP) :
    ∀ (events : List EventType) (i : Nat) (res : ProcessingResult),
    (∀ j, j < events.length → sadd64 head (i + j) ≤ lastP) →
    processLoop head events i lastP res =
      ({ res with skipped := res.skipped + events.length }, lastP) := by
  intro events
  induction events with
  | nil => intro i res _; simp [processLoop]
  | cons e rest ih =>
    intro i res h
    have h0 : sadd64 head i ≤ lastP := by simpa using h 0 (by simp)
    unfold processLoop
    rw [if_pos ⟨hpos, h0⟩]
    rw [ih (i + 1) _ (fun j hj => by
      have := h (j + 1) (by simpa using Nat.succ_lt_succ hj)
      simpa [Nat.add_assoc, Nat.add_comm 1 j] using this)]
    dsimp only
    simp only [List.length_cons, Prod.mk.injEq, ProcessingResult.mk.injEq, true_and, and_true]
    omega

/-- C4 (amended): for a cursor with `last_processed = N ≥ 1` (which the
cursor reaches as soon as any event with a positive sequence number has been
processed), re-feeding a batch all of whose sequence numbers are `≤ N` is a
no-op: every event counts as skipped, nothing is processed, and the cursor's
`last_processed` and `events_processed` are unchanged.  When `N = 0`, the
guard `last_processed > 0` is false and a re-delivered event with sequence
number 0 is processed again (see the counterexample). -/
theorem C4_reprocess_amended (c : EventCursor) (events : List EventType)
    (head : Nat) (hN : 1 ≤ c.lastProcessed) (hrange : c.eventsProcessed ≤ u64Max)
    (hle : ∀ j, j < events.length → sadd64 head j ≤ c.lastProcessed) :
    (process_events (some c) events head).1.skipped = events.length ∧
    (process_events (some c) events head).1.eventsProcessed = 0 ∧
    (process_events (some c) events head).1.fills = 0 ∧
    (process_events (some c) events head).1.outs = 0 ∧
    (process_events (some c) events head).2.lastProcessed = c.lastProcessed ∧
    (process_events (some c) events head).2.eventsProcessed = c.eventsProcessed := by
  unfold process_events
  simp only [Option.getD_some, EventCursor.update_head]
  rw [processLoop_all_skipped head c.lastProcessed hN events 0 .empty
    (fun j hj => by simpa using hle j hj)]
  refine ⟨by simp [ProcessingResult.empty], rfl, rfl, rfl, rfl, ?_⟩
  simp only [ProcessingResult.empty, sadd64]
  omega

/-- C4 witness: a cursor at `last_processed = 5` re-fed two events with
sequence numbers 3 and 4. -/
theorem C4_witness :
    (process_events (some (EventCursor.mk 0 5 2)) [EventType.fill, EventType.out] 3).1.skipped =
      [EventType.fill, EventType.out].length ∧
    (process_events (some (EventCursor.mk 0 5 2)) [EventType.fill, EventType.out] 3).2.lastProcessed = 5 ∧
    (process_events (some (EventCursor.mk 0 5 2)) [EventType.fill, EventType.out] 3).2.eventsProcessed = 2 := by
  have h := C4_reprocess_amended (EventCursor.mk 0 5 2) [EventType.fill, EventType.out] 3
    (by decide) (by decide) (by decide)
  exact ⟨h.1, h.2.2.2.2.1, h.2.2.2.2.2⟩

/-!
## Claim C5 — event queue push
-/

/-- Helper: full characterization of a single `pushRecord` on a queue with
in-range header fields satisfying the count invariant. -/
theorem pushRecord_spec (q : EventQueue) (e : QEvent)
    (hcc : q.count ≤ q.capacity) (hcap : q.capacity ≤ u32Max)
    (hseq : q.seqNum ≤ u64Max) :
    (pushRecord q e = .error .EventQueueFull ↔ q.count = q.capacity) ∧
    (∀ q1, pushRecord q e = .ok q1 →
      q1.slots ((q.head + q.count) % q.capacity) = e ∧
      (∀ j, j ≠ (q.head + q.count) % q.capacity → q1.slots j = q.slots j) ∧
      q1.count = q.count + 1 ∧
      q1.seqNum = min (q.seqNum + 1) u64Max ∧
      q.seqNum ≤ q1.seqNum ∧
      (q.seqNum < u64Max → q1.seqNum = q.seqNum + 1) ∧
      q1.head = q.head ∧ q1.capacity = q.capacity) := by
  unfold pushRecord
  by_cases h : q.capacity = 0 ∨ q.capacity ≤ q.count
  · rw [if_pos h]
    exact ⟨⟨fun _ => by omega, fun _ => rfl⟩, fun q1 hq => Except.noConfusion hq⟩
  · rw [if_neg h]
    push_neg at h
    refine ⟨⟨fun hq => Except.noConfusion hq, fun hcnt => absurd hcnt (by omega)⟩,
      fun q1 hq => ?_⟩
    injection hq with hq
    subst hq
    refine ⟨by simp, fun j hj => by simp [hj], ?_, rfl, ?_, fun hlt => ?_, rfl, rfl⟩
    · show min (q.count + 1) u32Max = q.count + 1
      omega
    · show q.seqNum ≤ min (q.seqNum + 1) u64Max
      omega
    · show min (q.seqNum + 1) u64Max = q.seqNum + 1
      omega

/-- C5 counterexample: on a queue with `seq_num = u64::MAX` (and `count <
capacity`, so the push must succeed), `seq_num.saturating_add(1)` leaves
`seq_num` unchanged — it does not increase by exactly 1. -/
theorem C5_counterexample :
    qMaxSeq.count < qMaxSeq.capacity ∧
    (push_fill_event qMaxSeq fill0).toOption.map (fun q => q.seqNum) =
      some qMaxSeq.seqNum ∧
    (push_fill_event qMaxSeq fill0).toOption.map (fun q => q.seqNum) ≠
      some (qMaxSeq.seqNum + 1) := by decide

/-- C5 (amended): for a push (Fill or Out) on a queue satisfying the EventLog
invariants (`count ≤ capacity`, u32/u64 fields in range): the push fails with
`EventQueueFull` iff `count == capacity`; on success the record is written at
slot `(head + count) mod capacity` (all other slots unchanged), `count`
increases by exactly 1, and `seq_num = min(seq_num + 1, u64::MAX)` — it
increases by exactly 1 whenever it is below the u64 maximum, stays put at the
maximum, and never decreases. -/
theorem C5_push_amended (q : EventQueue) (ef : FillEvent) (eo : OutEvent)
    (hcc : q.count ≤ q.capacity) (hcap : q.capacity ≤ u32Max)
    (hseq : q.seqNum ≤ u64Max) :
    (push_fill_event q ef = .error .EventQueueFull ↔ q.count = q.capacity) ∧
    (∀ q1, push_fill_event q ef = .ok q1 →
      q1.slots ((q.head + q.count) % q.capacity) = .fill ef ∧
      (∀ j, j ≠ (q.head + q.count) % q.capacity → q1.slots j = q.slots j) ∧
      q1.count = q.count + 1 ∧
      q1.seqNum = min (q.seqNum + 1) u64Max ∧
      q.seqNum ≤ q1.seqNum ∧
      (q.seqNum < u64Max → q1.seqNum = q.seqNum + 1) ∧
      q1.head = q.head ∧ q1.capacity = q.capacity) ∧
    (push_out_event q eo = .error .EventQueueFull ↔ q.count = q.capacity) ∧
    (∀ q1, push_out_event q eo = .ok q1 →
      q1.slots ((q.head + q.count) % q.capacity) = .out eo ∧
      (∀ j, j ≠ (q.head + q.count) % q.capacity → q1.slots j = q.slots j) ∧
      q1.count = q.count + 1 ∧
      q1.seqNum = min (q.seqNum + 1) u64Max ∧
      q.seqNum ≤ q1.seqNum ∧
      (q.seqNum < u64Max → q1.seqNum = q.seqNum + 1) ∧
      q1.head = q.head ∧ q1.capacity = q.capacity) := by
  have hf := pushRecord_spec q (.fill ef) hcc hcap hseq
  have ho := pushRecord_spec q (.out eo) hcc hcap hseq
  exact ⟨hf.1, hf.2, ho.1, ho.2⟩

/-- C5 witness: a concrete empty capacity-2 queue, for which neither push is
full. -/
theorem C5_witness :
    (push_fill_event (mkQueue 2) fill0 = .error .EventQueueFull ↔
      (mkQueue 2).count = (mkQueue 2).capacity) ∧
    (push_out_event (mkQueue 2) out0 = .error .EventQueueFull ↔
      (mkQueue 2).count = (mkQueue 2).capacity) := by
  have h := C5_push_amended (mkQueue 2) fill0 out0 (by decide) (by decide) (by decide)
  exact ⟨h.1, h.2.2.1⟩

/-!
## Claim C8 — quantity conservation of a match
-/

/-- The match result of the `bBook1`/`aBook1` fixture pair. -/
def matchR1 : MatchResult :=
  ⟨900, 4, bidKey 1000 5, 11, 1, 0, askKey 900 7, 22, 2, 0⟩

/-- The best-order info of `bBook1`. -/
def bbInfo1 : BestOrderInfo := ⟨bidKey 1000 5, 1000, 4, 11, 1⟩

/-- The best-order info of `aBook1`. -/
def baInfo1 : BestOrderInfo := ⟨askKey 900 7, 900, 4, 22, 2⟩

/-- C8: for every match, `match_quantity = min(bid.remaining, ask.remaining)`
and each side's resting quantity before the match equals its remaining
quantity after the match plus the matched quantity — quantity is conserved. -/
theorem C8_conservation (bids asks : Book) (bl ql : Nat) (r : MatchResult)
    (bb ba : BestOrderInfo)
    (hb : get_best_order bids true = some bb)
    (ha : get_best_order asks false = some ba)
    (h : find_match bids asks bl ql = some r) :
    r.quantity = min bb.quantity ba.quantity ∧
    bb.quantity = r.bidRemaining + r.quantity ∧
    ba.quantity = r.askRemaining + r.quantity := by
  unfold find_match at h
  simp only [hb, ha] at h
  by_cases hp : bb.price < ba.price
  · rw [if_pos hp] at h
    exact Option.noConfusion h
  · rw [if_neg hp] at h
    injection h with h
    subst h
    refine ⟨rfl, ?_, ?_⟩ <;> {
      show _ = _ - min bb.quantity ba.quantity + min bb.quantity ba.quantity
      omega
    }

/-- C8 witness: the concrete one-order-per-side fixture, quantities 4 and 4. -/
theorem C8_witness :
    matchR1.quantity = min bbInfo1.quantity baInfo1.quantity ∧
    bbInfo1.quantity = matchR1.bidRemaining + matchR1.quantity ∧
    baInfo1.quantity = matchR1.askRemaining + matchR1.quantity :=
  C8_conservation bBook1 aBook1 1 1 matchR1 bbInfo1 baInfo1
    (by decide) (by decide) (by decide)

/-!
## Claim C2 — execution price
-/

/-- C2 counterexample: the bid rested first (insertion sequence 5 against the
ask's 7), so the bid at price 1000 is the resting ("maker") order; the match
nevertheless executes at 900 — the ask's price — and that price is carried
into the Fill event. -/
theorem C2_counterexample :
    priceOfKey (bidKey 1000 5) = 1000 ∧
    priceOfKey (askKey 900 7) = 900 ∧
    bidSeqOfKey (bidKey 1000 5) = 5 ∧
    askSeqOfKey (askKey 900 7) = 7 ∧
    (find_match bBook1 aBook1 1 1).map (fun r => r.price) = some 900 ∧
    (find_match bBook1 aBook1 1 1).map (fun r => r.price) ≠ some 1000 ∧
    runSlot (handler mkt1 bBook1 aBook1 (mkQueue 10) 1) 0 =
      some (QEvent.fill (FillEvent.new Side.ask 11 (bidKey 1000 5) 1 22
        (askKey 900 7) 2 900 4 0 0)) := by decide

/-- C2 (amended): the execution price of every match equals the best *ask's*
price, regardless of which side rested first (`match_price = ask_price` in
`find_match`); that price is the one carried in the Fill event and used for
the notional computation.  Only when the ask is the resting order does it
coincide with the maker's price. -/
theorem C2_price_amended (m : Market) (bids asks : Book) (bl ql : Nat)
    (r : MatchResult) (ba : BestOrderInfo)
    (ha : get_best_order asks false = some ba)
    (h : find_match bids asks bl ql = some r) :
    r.price = ba.price ∧
    (fillOf m r).price = r.price ∧
    (fillOf m r).takerFee = takerFeeOf m (notionalOf m r.quantity r.price) := by
  unfold find_match at h
  cases hb : get_best_order bids true with
  | none => rw [hb] at h; exact Option.noConfusion h
  | some bb =>
    simp only [hb, ha] at h
    by_cases hp : bb.price < ba.price
    · rw [if_pos hp] at h
      exact Option.noConfusion h
    · rw [if_neg hp] at h
      injection h with h
      subst h
      exact ⟨rfl, rfl, rfl⟩

/-- C2 witness: the concrete fixture match executes at the ask price 900. -/
theorem C2_witness :
    matchR1.price = baInfo1.price ∧
    (fillOf mkt1 matchR1).price = matchR1.price ∧
    (fillOf mkt1 matchR1).takerFee =
      takerFeeOf mkt1 (notionalOf mkt1 matchR1.quantity matchR1.price) :=
  C2_price_amended mkt1 bBook1 aBook1 1 1 matchR1 baInfo1 (by decide) (by decide)

/-!
## Claim C7 — best-order selection
-/

/-- Key order from the winning side's viewpoint: `a` is no better than `b`. -/
def keyLe (isBids : Bool) (a b : Nat) : Prop :=
  if isBids then a ≤ b else b ≤ a

/-- Helper: `keyLe` is reflexive. -/
theorem keyLe_refl (isBids : Bool) (k : Nat) : keyLe isBids k k := by
  cases isBids <;> simp [keyLe]

/-- Helper: `keyLe` is transitive. -/
theorem keyLe_trans (isBids : Bool) {a b c : Nat}
    (h1 : keyLe isBids a b) (h2 : keyLe isBids b c) : keyLe isBids a c := by
  cases isBids <;> simp [keyLe] at h1 h2 ⊢ <;> omega

/-- Helper: a strictly better key is at least as good. -/
theorem keyLe_of_betterKey (isBids : Bool) {a b : Nat}
    (h : betterKey isBids b a = true) : keyLe isBids a b := by
  cases isBids <;> simp [keyLe, betterKey] at h ⊢ <;> omega

/-- Helper: a key that is not strictly better is at most as good. -/
theorem keyLe_of_not_betterKey (isBids : Bool) {a b : Nat}
    (h : betterKey isBids b a = false) : keyLe isBids b a := by
  cases isBids <;> simp [keyLe, betterKey] at h ⊢ <;> omega


/-- Helper: a scan step over a leaf slot never clears the running best. -/
theorem bestStep_ne_none (isBids : Bool) (acc : Option LeafData) (n : Node)
    (l : LeafData) (hn : n.toLeaf = some l) : bestStep isBids acc n ≠ none := by
  cases acc with
  | none => simp [bestStep, hn]
  | some b =>
    simp only [bestStep, hn]
    split <;> simp

/-- Helper: the best-order scan yields nothing iff it started with nothing
and the scanned slots hold no leaf. -/
theorem bestFold_none (isBids : Bool) (ns : List Node) :
    ∀ acc, ns.foldl (bestStep isBids) acc = none ↔
      (acc = none ∧ ns.filterMap Node.toLeaf = []) := by
  induction ns with
  | nil => intro acc; simp
  | cons n rest ih =>
    intro acc
    rw [List.foldl_cons, ih]
    cases hn : n.toLeaf with
    | none =>
      rw [List.filterMap_cons_none hn]
      have hstep : bestStep isBids acc n = acc := by
        cases acc <;> simp [bestStep, hn]
      rw [hstep]
    | some l =>
      rw [List.filterMap_cons_some hn]
      constructor
      · rintro ⟨hacc, -⟩
        exact absurd hacc (bestStep_ne_none isBids acc n l hn)
      · rintro ⟨-, hfm⟩
        exact absurd hfm (by simp)

/-- Helper: a leaf produced by the best-order scan is the accumulator or one
of the scanned leaves, beats every scanned leaf, and beats the accumulator. -/
theorem bestFold_some (isBids : Bool) (ns : List Node) :
    ∀ acc l, ns.foldl (bestStep isBids) acc = some l →
      (acc = some l ∨ l ∈ ns.filterMap Node.toLeaf) ∧
      (∀ l2 ∈ ns.filterMap Node.toLeaf, keyLe isBids l2.key l.key) ∧
      (∀ l0, acc = some l0 → keyLe isBids l0.key l.key) := by
  induction ns with
  | nil =>
    intro acc l h
    simp only [List.foldl_nil] at h
    refine ⟨Or.inl h, by simp, fun l0 h0 => ?_⟩
    rw [h] at h0
    injection h0 with h0
    subst h0
    exact keyLe_refl isBids _
  | cons n rest ih =>
    intro acc l h
    rw [List.foldl_cons] at h
    have spec := ih (bestStep isBids acc n) l h
    cases hn : n.toLeaf with
    | none =>
      have hstep : bestStep isBids acc n = acc := by
        cases acc <;> simp [bestStep, hn]
      rw [hstep] at spec
      rw [List.filterMap_cons_none hn]
      exact spec
    | some ln =>
      rw [List.filterMap_cons_some hn]
      have hstep2 : ∀ b, bestStep isBids (some b) n =
          if betterKey isBids ln.key b.key then some ln else some b := by
        intro b; simp [bestStep, hn]
      have hstep0 : bestStep isBids none n = some ln := by simp [bestStep, hn]
      have hln : keyLe isBids ln.key l.key := by
        cases acc with
        | none =>
          rw [hstep0] at spec
          exact spec.2.2 ln rfl
        | some b =>
          rw [hstep2 b] at spec
          cases hbk : betterKey isBids ln.key b.key with
          | true =>
            rw [hbk, if_pos rfl] at spec
            exact spec.2.2 ln rfl
          | false =>
            rw [hbk] at spec
            simp only [Bool.false_eq_true, if_false] at spec
            exact keyLe_trans isBids (keyLe_of_not_betterKey isBids hbk)
              (spec.2.2 b rfl)
      refine ⟨?_, ?_, ?_⟩
      · cases acc with
        | none =>
          rw [hstep0] at spec
          rcases spec.1 with h1 | h1
          · injection h1 with h1
            right
            rw [← h1]
            exact List.mem_cons_self _ _
          · right; exact List.mem_cons_of_mem _ h1
        | some b =>
          rw [hstep2 b] at spec
          cases hbk : betterKey isBids ln.key b.key with
          | true =>
            rw [hbk, if_pos rfl] at spec
            rcases spec.1 with h1 | h1
            · injection h1 with h1
              right
              rw [← h1]
              exact List.mem_cons_self _ _
            · right; exact List.mem_cons_of_mem _ h1
          | false =>
            rw [hbk] at spec
            simp only [Bool.false_eq_true, if_false] at spec
            rcases spec.1 with h1 | h1
            · left; rw [h1]
            · right; exact List.mem_cons_of_mem _ h1
      · intro l2 hl2
        rcases List.mem_cons.mp hl2 with h2 | h2
        · subst h2; exact hln
        · exact spec.2.1 l2 h2
      · intro l0 h0
        cases acc with
        | none => exact Option.noConfusion h0
        | some b =>
          injection h0 with h0
          subst h0
          rw [hstep2 b] at spec
          cases hbk : betterKey isBids ln.key b.key with
          | true =>
            rw [hbk, if_pos rfl] at spec
            exact keyLe_trans isBids (keyLe_of_betterKey isBids hbk)
              (spec.2.2 ln rfl)
          | false =>
            rw [hbk] at spec
            simp only [Bool.false_eq_true, if_false] at spec
            exact spec.2.2 b rfl

/-- Helper: a smaller-or-equal 128-bit key has a strictly smaller price or the
same price with a smaller-or-equal low half. -/
theorem price_lt_or_eq_of_le {k1 k2 : Nat} (h : k1 ≤ k2) :
    priceOfKey k1 < priceOfKey k2 ∨
      (priceOfKey k1 = priceOfKey k2 ∧ k1 % 2 ^ 64 ≤ k2 % 2 ^ 64) := by
  unfold priceOfKey
  rcases Nat.lt_or_ge (k1 / 2 ^ 64) (k2 / 2 ^ 64) with hlt | hge
  · exact Or.inl hlt
  · have hdiv : k1 / 2 ^ 64 = k2 / 2 ^ 64 :=
      le_antisymm (Nat.div_le_div_right h) hge
    refine Or.inr ⟨hdiv, ?_⟩
    have e1 := Nat.div_add_mod k1 (2 ^ 64)
    have e2 := Nat.div_add_mod k2 (2 ^ 64)
    omega

/-- C7 counterexample: a book whose single resting leaf sits at slot 2, with
`leaf_count = 1` and `root ≠ SENTINEL`: the scan visits only the first
`leaf_count * 2 = 2` slots, so best-order selection returns `None` although
`leaf_count ≠ 0` and a resting leaf exists. -/
theorem C7_counterexample :
    get_best_order bBookCex true = none ∧
    bBookCex.leafCount = 1 ∧
    bookLeaves bBookCex ≠ [] := by decide

/-- C7 (amended): on a book whose leaves all sit within the scanned window of
`leaf_count * 2` slots, whose `leaf_count` matches the number of leaves, and
with `root = SENTINEL` iff the book is empty, best-order selection returns
`None` iff `leaf_count = 0`, and otherwise returns a resting leaf holding the
numerically extreme key (maximum for bids, minimum for asks) — which, for
bids, is the leaf with the highest price and, among equal prices, the
earliest insertion sequence; symmetrically for asks. -/
theorem C7_best_order_amended (b : Book) (isBids : Bool)
    (hwin : bookLeaves b = scannedLeaves b)
    (hcount : b.leafCount = (bookLeaves b).length)
    (hroot : b.root = SENTINEL ↔ b.leafCount = 0) :
    (get_best_order b isBids = none ↔ b.leafCount = 0) ∧
    (∀ info, get_best_order b isBids = some info →
      (∃ l ∈ bookLeaves b, l.key = info.key ∧ info.price = priceOfKey l.key ∧
        info.quantity = l.quantity ∧ info.owner = l.owner ∧
        info.clientOrderId = l.clientOrderId) ∧
      (∀ l ∈ bookLeaves b, isBids = true → l.key ≤ info.key) ∧
      (∀ l ∈ bookLeaves b, isBids = false → info.key ≤ l.key) ∧
      (∀ l ∈ bookLeaves b, isBids = true →
        priceOfKey l.key < priceOfKey info.key ∨
          (priceOfKey l.key = priceOfKey info.key ∧
            bidSeqOfKey info.key ≤ bidSeqOfKey l.key)) ∧
      (∀ l ∈ bookLeaves b, isBids = false →
        priceOfKey info.key < priceOfKey l.key ∨
          (priceOfKey info.key = priceOfKey l.key ∧
            askSeqOfKey info.key ≤ askSeqOfKey l.key))) := by
  unfold scannedLeaves at hwin
  by_cases h0 : b.leafCount = 0
  · constructor
    · rw [get_best_order, if_pos h0]
      exact ⟨fun _ => h0, fun _ => rfl⟩
    · intro info hinf
      rw [get_best_order, if_pos h0] at hinf
      exact Option.noConfusion hinf
  · have hr : b.root ≠ SENTINEL := fun hs => h0 (hroot.mp hs)
    have hg : get_best_order b isBids =
        match (b.nodes.take (2 * b.leafCount)).foldl (bestStep isBids) none with
        | none => none
        | some l =>
          some ⟨l.key, priceOfKey l.key, l.quantity, l.owner, l.clientOrderId⟩ := by
      rw [get_best_order, if_neg h0, if_neg hr]
    cases hf : (b.nodes.take (2 * b.leafCount)).foldl (bestStep isBids) none with
    | none =>
      exfalso
      have hsc := ((bestFold_none isBids _ none).mp hf).2
      rw [← hwin] at hsc
      rw [hsc] at hcount
      exact h0 (by simpa using hcount)
    | some l =>
      have hspec := bestFold_some isBids _ none l hf
      have hmem : l ∈ bookLeaves b := by
        rcases hspec.1 with h1 | h1
        · exact Option.noConfusion h1
        · rw [hwin]; exact h1
      have hopt : ∀ l2 ∈ bookLeaves b, keyLe isBids l2.key l.key := by
        intro l2 hl2
        rw [hwin] at hl2
        exact hspec.2.1 l2 hl2
      rw [hg, hf]
      constructor
      · exact ⟨fun hc => Option.noConfusion hc, fun hc => absurd hc h0⟩
      · intro info hinf
        injection hinf with hinf
        subst hinf
        refine ⟨⟨l, hmem, rfl, rfl, rfl, rfl, rfl⟩, ?_, ?_, ?_, ?_⟩
        · intro l2 hl2 hb
          subst hb
          simpa [keyLe] using hopt l2 hl2
        · intro l2 hl2 hb
          subst hb
          simpa [keyLe] using hopt l2 hl2
        · intro l2 hl2 hb
          subst hb
          have hk : l2.key ≤ l.key := by simpa [keyLe] using hopt l2 hl2
          rcases price_lt_or_eq_of_le hk with hp | ⟨hp, hm⟩
          · exact Or.inl hp
          · exact Or.inr ⟨hp, Nat.sub_le_sub_left hm u64Max⟩
        · intro l2 hl2 hb
          subst hb
          have hk : l.key ≤ l2.key := by simpa [keyLe] using hopt l2 hl2
          rcases price_lt_or_eq_of_le hk with hp | ⟨hp, hm⟩
          · exact Or.inl hp
          · exact Or.inr ⟨hp, hm⟩

/-- C7 witness: a two-leaf bid book; the best is the price-1000 leaf and it
beats the price-900 leaf. -/
theorem C7_witness :
    (get_best_order bBook2 true = none ↔ bBook2.leafCount = 0) ∧
    (LeafData.mk (bidKey 900 1) 7 3 1).key ≤
      (BestOrderInfo.mk (bidKey 1000 2) 1000 4 8 2).key := by
  have h := C7_best_order_amended bBook2 true (by decide) (by decide) (by decide)
  refine ⟨h.1, ?_⟩
  have h2 := (h.2 ⟨bidKey 1000 2, 1000, 4, 8, 2⟩ (by decide)).2.1
  exact h2 ⟨bidKey 900 1, 7, 3, 1⟩ (by decide) rfl

/-!
## Claim C6 — match count
-/

/-- Helper: an empty side yields no best order. -/
theorem get_best_order_none_of_empty (b : Book) (isBids : Bool)
    (h : b.leafCount = 0) : get_best_order b isBids = none := by
  rw [get_best_order, if_pos h]

/-- Helper: no best bid, no match. -/
theorem find_match_none_left (bids asks : Book) (bl ql : Nat)
    (h : get_best_order bids true = none) :
    find_match bids asks bl ql = none := by
  unfold find_match
  rw [h]

/-- Helper: no best ask, no match. -/
theorem find_match_none_right (bids asks : Book) (bl ql : Nat)
    (h : get_best_order asks false = none) :
    find_match bids asks bl ql = none := by
  unfold find_match
  cases hb : get_best_order bids true with
  | none => rfl
  | some bb => rw [h]

/-- Helper: a successful removal found the key in a nonempty scan window and
decrements `leaf_count` by exactly one. -/
theorem remove_order_leafCount (b : Book) (k : Nat) (b1 : Book)
    (h : remove_order b k = .ok b1) :
    b1.leafCount = b.leafCount - 1 ∧ 1 ≤ b.leafCount := by
  unfold remove_order at h
  cases hidx : findLeafIdx b k with
  | none => rw [hidx] at h; exact Except.noConfusion h
  | some i =>
    rw [hidx] at h
    injection h with h
    subst h
    refine ⟨rfl, ?_⟩
    by_cases h0 : b.leafCount = 0
    · exfalso
      unfold findLeafIdx at hidx
      rw [h0] at hidx
      simp at hidx
    · omega

/-- Helper: a successful quantity update leaves `leaf_count` unchanged. -/
theorem update_order_leafCount (b : Book) (k v : Nat) (b1 : Book)
    (h : update_order_quantity b k v = .ok b1) :
    b1.leafCount = b.leafCount := by
  unfold update_order_quantity at h
  cases hidx : findLeafIdx b k with
  | none => rw [hidx] at h; exact Except.noConfusion h
  | some i =>
    simp only [hidx] at h
    cases hg : b.nodes.get? i with
    | none => simp only [hg] at h; exact Except.noConfusion h
    | some n =>
      simp only [hg] at h
      cases n with
      | inner => exact Except.noConfusion h
      | free next => exact Except.noConfusion h
      | leaf key owner q c =>
        injection h with h
        subst h
        rfl

/-- Helper: leaf-count bounds of the bid-side book mutation. -/
theorem bidBookStep_leafCount (bids : Book) (r : MatchResult) (b1 : Book)
    (h : bidBookStep bids r = .ok b1) :
    b1.leafCount ≤ bids.leafCount ∧
      (r.bidRemaining = 0 → bids.leafCount = b1.leafCount + 1) := by
  unfold bidBookStep at h
  by_cases hrem : r.bidRemaining = 0
  · rw [if_pos hrem] at h
    have := remove_order_leafCount bids r.bidOrderId b1 h
    exact ⟨by omega, fun _ => by omega⟩
  · rw [if_neg hrem] at h
    have := update_order_leafCount bids r.bidOrderId r.bidRemaining b1 h
    exact ⟨by omega, fun h0 => absurd h0 hrem⟩

/-- Helper: leaf-count bounds of the ask-side book mutation. -/
theorem askBookStep_leafCount (asks : Book) (r : MatchResult) (a1 : Book)
    (h : askBookStep asks r = .ok a1) :
    a1.leafCount ≤ asks.leafCount ∧
      (r.askRemaining = 0 → asks.leafCount = a1.leafCount + 1) := by
  unfold askBookStep at h
  by_cases hrem : r.askRemaining = 0
  · rw [if_pos hrem] at h
    have := remove_order_leafCount asks r.askOrderId a1 h
    exact ⟨by omega, fun _ => by omega⟩
  · rw [if_neg hrem] at h
    have := update_order_leafCount asks r.askOrderId r.askRemaining a1 h
    exact ⟨by omega, fun h0 => absurd h0 hrem⟩

/-- Helper: `settleBooks` is the pair of the two side mutations. -/
theorem settleBooks_eq (bids asks : Book) (r : MatchResult) :
    settleBooks bids asks r =
      (match bidBookStep bids r with
       | .error _ => none
       | .ok bids1 =>
         match askBookStep asks r with
         | .error _ => none
         | .ok asks1 => some (bids1, asks1)) := rfl

/-- Helper: every match fully fills the smaller side. -/
theorem find_match_full_fill (bids asks : Book) (bl ql : Nat) (r : MatchResult)
    (h : find_match bids asks bl ql = some r) :
    r.bidRemaining = 0 ∨ r.askRemaining = 0 := by
  unfold find_match at h
  cases hb : get_best_order bids true with
  | none => rw [hb] at h; exact Option.noConfusion h
  | some bb =>
    cases ha : get_best_order asks false with
    | none => simp only [hb, ha] at h; exact Option.noConfusion h
    | some ba =>
      simp only [hb, ha] at h
      by_cases hp : bb.price < ba.price
      · rw [if_pos hp] at h; exact Option.noConfusion h
      · rw [if_neg hp] at h
        injection h with h
        subst h
        rcases Nat.le_total bb.quantity ba.quantity with h1 | h1
        · left
          show bb.quantity - min bb.quantity ba.quantity = 0
          omega
        · right
          show ba.quantity - min bb.quantity ba.quantity = 0
          omega

/-- Helper: a settled match strictly shrinks the total number of resting
orders (the fully filled side is removed). -/
theorem settleBooks_decreases (bids asks : Book) (r : MatchResult)
    (b1 a1 : Book) (hs : settleBooks bids asks r = some (b1, a1))
    (hor : r.bidRemaining = 0 ∨ r.askRemaining = 0) :
    b1.leafCount + a1.leafCount < bids.leafCount + asks.leafCount := by
  rw [settleBooks_eq] at hs
  cases hb : bidBookStep bids r with
  | error e => rw [hb] at hs; exact Option.noConfusion hs
  | ok b2 =>
    rw [hb] at hs
    cases ha : askBookStep asks r with
    | error e => rw [ha] at hs; exact Option.noConfusion hs
    | ok a2 =>
      rw [ha] at hs
      injection hs with hs
      rw [Prod.mk.injEq] at hs
      obtain ⟨hb1, ha1⟩ := hs
      have h1 := bidBookStep_leafCount bids r b2 hb
      have h2 := askBookStep_leafCount asks r a2 ha
      have e1 : b2.leafCount = b1.leafCount := by rw [hb1]
      have e2 : a2.leafCount = a1.leafCount := by rw [ha1]
      rcases hor with h0 | h0
      · have h3 := h1.2 h0
        have h4 := h2.1
        omega
      · have h3 := h2.2 h0
        have h4 := h1.1
        omega

/-- Helper: with no match in sight, the crossable-pair count is zero at any
fuel. -/
theorem crossablePairsAux_zero (m : Market) (bids asks : Book)
    (h : find_match bids asks m.baseLotSize m.quoteLotSize = none) :
    ∀ fuel, crossablePairsAux m fuel bids asks = 0 := by
  intro fuel
  cases fuel with
  | zero => rfl
  | succ k => simp [crossablePairsAux, h]

/-- Helper: the crossable-pair count does not depend on the fuel, once the
fuel covers the total number of resting orders. -/
theorem crossablePairsAux_congr (m : Market) :
    ∀ f1 f2 (bids asks : Book),
      bids.leafCount + asks.leafCount ≤ f1 →
      bids.leafCount + asks.leafCount ≤ f2 →
      crossablePairsAux m f1 bids asks = crossablePairsAux m f2 bids asks := by
  intro f1
  induction f1 with
  | zero =>
    intro f2 bids asks h1 h2
    have hb : bids.leafCount = 0 := by omega
    have hfm : find_match bids asks m.baseLotSize m.quoteLotSize = none :=
      find_match_none_left _ _ _ _ (get_best_order_none_of_empty bids true hb)
    rw [crossablePairsAux_zero m bids asks hfm 0,
      crossablePairsAux_zero m bids asks hfm f2]
  | succ f1p ih =>
    intro f2 bids asks h1 h2
    cases f2 with
    | zero =>
      have hb : bids.leafCount = 0 := by omega
      have hfm : find_match bids asks m.baseLotSize m.quoteLotSize = none :=
        find_match_none_left _ _ _ _ (get_best_order_none_of_empty bids true hb)
      rw [crossablePairsAux_zero m bids asks hfm (f1p + 1),
        crossablePairsAux_zero m bids asks hfm 0]
    | succ f2p =>
      show crossablePairsAux m (f1p + 1) bids asks =
        crossablePairsAux m (f2p + 1) bids asks
      cases hfm : find_match bids asks m.baseLotSize m.quoteLotSize with
      | none => simp [crossablePairsAux, hfm]
      | some r =>
        cases hsb : settleBooks bids asks r with
        | none => simp [crossablePairsAux, hfm, hsb]
        | some pq =>
          obtain ⟨b1, a1⟩ := pq
          have hdec := settleBooks_decreases bids asks r b1 a1 hsb
            (find_match_full_fill bids asks m.baseLotSize m.quoteLotSize r hfm)
          simp only [crossablePairsAux, hfm, hsb]
          rw [ih f2p b1 a1 (by omega) (by omega)]

/-- Helper: the book component of a successful bid settlement is the bid-side
book mutation (the out-push outcome only affects the queue). -/
theorem settleBid_ok_book (bids : Book) (q : EventQueue) (r : MatchResult)
    (b1 : Book) (q1 : EventQueue) (h : settleBid bids q r = .ok (b1, q1)) :
    bidBookStep bids r = .ok b1 := by
  unfold settleBid at h
  unfold bidBookStep
  by_cases hrem : r.bidRemaining = 0
  · rw [if_pos hrem] at h ⊢
    cases hro : remove_order bids r.bidOrderId with
    | error e => simp only [hro] at h; exact Except.noConfusion h
    | ok b2 =>
      simp only [hro] at h
      cases hp : push_out_event q (OutEvent.new Side.bid r.bidOwner r.bidOrderId
          r.bidClientOrderId 0 0 OutReason.filled) with
      | ok q2 =>
        simp only [hp] at h
        injection h with h
        rw [Prod.mk.injEq] at h
        rw [← h.1]
      | error e =>
        simp only [hp] at h
        injection h with h
        rw [Prod.mk.injEq] at h
        rw [← h.1]
  · rw [if_neg hrem] at h ⊢
    cases hro : update_order_quantity bids r.bidOrderId r.bidRemaining with
    | error e => simp only [hro] at h; exact Except.noConfusion h
    | ok b2 =>
      simp only [hro] at h
      injection h with h
      rw [Prod.mk.injEq] at h
      rw [← h.1]

/-- Helper: the book component of a successful ask settlement is the ask-side
book mutation. -/
theorem settleAsk_ok_book (asks : Book) (q : EventQueue) (r : MatchResult)
    (a1 : Book) (q1 : EventQueue) (h : settleAsk asks q r = .ok (a1, q1)) :
    askBookStep asks r = .ok a1 := by
  unfold settleAsk at h
  unfold askBookStep
  by_cases hrem : r.askRemaining = 0
  · rw [if_pos hrem] at h ⊢
    cases hro : remove_order asks r.askOrderId with
    | error e => simp only [hro] at h; exact Except.noConfusion h
    | ok a2 =>
      simp only [hro] at h
      cases hp : push_out_event q (OutEvent.new Side.ask r.askOwner r.askOrderId
          r.askClientOrderId 0 0 OutReason.filled) with
      | ok q2 =>
        simp only [hp] at h
        injection h with h
        rw [Prod.mk.injEq] at h
        rw [← h.1]
      | error e =>
        simp only [hp] at h
        injection h with h
        rw [Prod.mk.injEq] at h
        rw [← h.1]
  · rw [if_neg hrem] at h ⊢
    cases hro : update_order_quantity asks r.askOrderId r.askRemaining with
    | error e => simp only [hro] at h; exact Except.noConfusion h
    | ok a2 =>
      simp only [hro] at h
      injection h with h
      rw [Prod.mk.injEq] at h
      rw [← h.1]

/-- Helper: a successful bid-side book mutation makes the bid settlement
succeed for any queue — a failed out-push is discarded, never propagated. -/
theorem settleBid_of_book (bids : Book) (q : EventQueue) (r : MatchResult)
    (b1 : Book) (h : bidBookStep bids r = .ok b1) :
    ∃ q1, settleBid bids q r = .ok (b1, q1) := by
  unfold bidBookStep at h
  unfold settleBid
  by_cases hrem : r.bidRemaining = 0
  · rw [if_pos hrem] at h ⊢
    rw [h]
    cases hp : push_out_event q (OutEvent.new Side.bid r.bidOwner r.bidOrderId
        r.bidClientOrderId 0 0 OutReason.filled) with
    | ok q2 => exact ⟨q2, rfl⟩
    | error e => exact ⟨q, rfl⟩
  · rw [if_neg hrem] at h ⊢
    rw [h]
    exact ⟨q, rfl⟩

/-- Helper: a successful ask-side book mutation makes the ask settlement
succeed for any queue. -/
theorem settleAsk_of_book (asks : Book) (q : EventQueue) (r : MatchResult)
    (a1 : Book) (h : askBookStep asks r = .ok a1) :
    ∃ q1, settleAsk asks q r = .ok (a1, q1) := by
  unfold askBookStep at h
  unfold settleAsk
  by_cases hrem : r.askRemaining = 0
  · rw [if_pos hrem] at h ⊢
    rw [h]
    cases hp : push_out_event q (OutEvent.new Side.ask r.askOwner r.askOrderId
        r.askClientOrderId 0 0 OutReason.filled) with
    | ok q2 => exact ⟨q2, rfl⟩
    | error e => exact ⟨q, rfl⟩
  · rw [if_neg hrem] at h ⊢
    rw [h]
    exact ⟨q, rfl⟩

/-- Helper: a successful match loop executes `min(limit, crossable_pairs)`
matches on top of its starting counter. -/
theorem matchLoop_count (m : Market) :
    ∀ (limit : Nat) (bids asks : Book) (q : EventQueue) (cnt n : Nat)
      (b1 a1 : Book) (q1 : EventQueue),
      matchLoop m limit bids asks q cnt = .ok (n, b1, a1, q1) →
      cnt + limit ≤ u8Max →
      n = cnt + min limit (crossable_pairs m bids asks) := by
  intro limit
  induction limit with
  | zero =>
    intro bids asks q cnt n b1 a1 q1 h hle
    unfold matchLoop at h
    injection h with h
    rw [Prod.mk.injEq] at h
    have h1 := h.1
    omega
  | succ l ih =>
    intro bids asks q cnt n b1 a1 q1 h hle
    rw [matchLoop] at h
    cases hfm : find_match bids asks m.baseLotSize m.quoteLotSize with
    | none =>
      simp only [hfm] at h
      injection h with h
      rw [Prod.mk.injEq] at h
      have h1 := h.1
      have hc : crossable_pairs m bids asks = 0 :=
        crossablePairsAux_zero m bids asks hfm _
      omega
    | some r =>
      simp only [hfm] at h
      cases hpf : push_fill_event q (fillOf m r) with
      | error e => simp only [hpf] at h; exact Except.noConfusion h
      | ok q2 =>
        simp only [hpf] at h
        cases hsb : settleBid bids q2 r with
        | error e => simp only [hsb] at h; exact Except.noConfusion h
        | ok p =>
          obtain ⟨bids2, q3⟩ := p
          simp only [hsb] at h
          cases hsa : settleAsk asks q3 r with
          | error e => simp only [hsa] at h; exact Except.noConfusion h
          | ok p2 =>
            obtain ⟨asks2, q4⟩ := p2
            simp only [hsa] at h
            have hs8 : sadd8 cnt 1 = cnt + 1 := by
              unfold sadd8 u8Max
              unfold u8Max at hle
              omega
            rw [hs8] at h
            have hrec := ih bids2 asks2 q4 (cnt + 1) n b1 a1 q1 h (by omega)
            have hbb := settleBid_ok_book bids q2 r bids2 q3 hsb
            have hab := settleAsk_ok_book asks q3 r asks2 q4 hsa
            have hset : settleBooks bids asks r = some (bids2, asks2) := by
              rw [settleBooks_eq, hbb, hab]
            have hor := find_match_full_fill bids asks m.baseLotSize
              m.quoteLotSize r hfm
            have hdec := settleBooks_decreases bids asks r bids2 asks2 hset hor
            have hcr : crossable_pairs m bids asks =
                crossable_pairs m bids2 asks2 + 1 := by
              unfold crossable_pairs
              cases hMe : bids.leafCount + asks.leafCount with
              | zero => omega
              | succ k =>
                simp only [crossablePairsAux, hfm, hset]
                rw [crossablePairsAux_congr m k
                  (bids2.leafCount + asks2.leafCount) bids2 asks2
                  (by omega) (le_refl _)]
            omega

/-- C6 counterexample: a bid resting at price 1000 and an ask resting at
price 900 — neither side empty and the prices cross, so at least one
crossable pair exists and the claim demands `min(5, ≥1) ≥ 1` matches — yet
the invocation succeeds with 0 matches, because the bid leaf sits at slot 2,
beyond the `leaf_count * 2 = 2` slots the best-order scan visits. -/
theorem C6_counterexample :
    bookLeaves bBookCex = [⟨bidKey 1000 5, 11, 4, 1⟩] ∧
    bookLeaves aBook1 = [⟨askKey 900 7, 22, 4, 2⟩] ∧
    priceOfKey (bidKey 1000 5) = 1000 ∧
    priceOfKey (askKey 900 7) = 900 ∧
    runMatches (handler mkt1 bBookCex aBook1 (mkQueue 10) 5) = some 0 := by
  decide

/-- C6 (amended): a successful `match(limit)` invocation (`limit ≤ 255` as a
u8) executes exactly `min(limit, crossable_pairs)` matches, where
`crossable_pairs` is the number of matches the engine's own bounded-window
find/settle iteration can perform; the count is always `≤ limit`, and it is 0
whenever no match is found — in particular when either side's `leaf_count` is
0 or the best bid's price is below the best ask's price. -/
theorem C6_match_count_amended (m : Market) (bids asks : Book) (q : EventQueue)
    (limit n : Nat) (b1 a1 : Book) (q1 : EventQueue)
    (hlim : limit ≤ u8Max)
    (hok : handler m bids asks q limit = .ok (n, b1, a1, q1)) :
    n = min limit (crossable_pairs m bids asks) ∧
    n ≤ limit ∧
    (find_match bids asks m.baseLotSize m.quoteLotSize = none → n = 0) ∧
    (bids.leafCount = 0 ∨ asks.leafCount = 0 → n = 0) ∧
    (∀ bb ba, get_best_order bids true = some bb →
      get_best_order asks false = some ba → bb.price < ba.price → n = 0) := by
  unfold handler at hok
  by_cases h0 : limit = 0
  · rw [if_pos h0] at hok
    exact Except.noConfusion hok
  · rw [if_neg h0] at hok
    by_cases hact : m.is_active = true
    · rw [if_neg (by simp [hact])] at hok
      have hmain := matchLoop_count m limit bids asks q 0 n b1 a1 q1 hok
        (by omega)
      have hn : n = min limit (crossable_pairs m bids asks) := by omega
      have hzero : ∀ hfm : find_match bids asks m.baseLotSize m.quoteLotSize
          = none, n = 0 := by
        intro hfm
        have hc : crossable_pairs m bids asks = 0 :=
          crossablePairsAux_zero m bids asks hfm _
        omega
      refine ⟨hn, by omega, hzero, ?_, ?_⟩
      · rintro (he | he)
        · exact hzero (find_match_none_left _ _ _ _
            (get_best_order_none_of_empty bids true he))
        · exact hzero (find_match_none_right _ _ _ _
            (get_best_order_none_of_empty asks false he))
      · intro bb ba hbb hba hp
        refine hzero ?_
        unfold find_match
        simp only [hbb, hba]
        rw [if_pos hp]
    · rw [if_pos (by simp [hact])] at hok
      exact Except.noConfusion hok

/-- C6 witness: a one-pair book under `limit = 3` executes exactly
`min(3, 1) = 1` match. -/
theorem C6_witness :
    ((handler mkt1 bBook1 aBook1 (mkQueue 10) 3).toOption.getD dfltState).1 =
      min 3 (crossable_pairs mkt1 bBook1 aBook1) ∧
    ((handler mkt1 bBook1 aBook1 (mkQueue 10) 3).toOption.getD dfltState).1 ≤ 3 := by
  have hok : handler mkt1 bBook1 aBook1 (mkQueue 10) 3 =
      .ok (((handler mkt1 bBook1 aBook1 (mkQueue 10) 3).toOption.getD dfltState).1,
        ((handler mkt1 bBook1 aBook1 (mkQueue 10) 3).toOption.getD dfltState).2.1,
        ((handler mkt1 bBook1 aBook1 (mkQueue 10) 3).toOption.getD dfltState).2.2.1,
        ((handler mkt1 bBook1 aBook1 (mkQueue 10) 3).toOption.getD dfltState).2.2.2) := rfl
  have h := C6_match_count_amended mkt1 bBook1 aBook1 (mkQueue 10) 3 _ _ _ _
    (by decide) hok
  exact ⟨h.1, h.2.1⟩

/-!
## Claim C1 — failure propagation
-/

/-- C1 counterexample: with a capacity-1 event queue and a match that fully
fills both orders, the Fill event occupies the only slot; both Out-event
pushes necessarily fail with `EventQueueFull`, yet the handler returns
`Ok(1)` — `let _ = push_out_event(..)` discards the failure — instead of
aborting: the final queue holds one record (the fill) and both books were
emptied. -/
theorem C1_counterexample :
    (mkQueue 1).capacity = 1 ∧
    runSummary (handler mkt1 bBook1 aBook1 (mkQueue 1) 1) =
      some (1, 0, 0, 1, 1) ∧
    runSlot (handler mkt1 bBook1 aBook1 (mkQueue 1) 1) 0 =
      some (QEvent.fill (FillEvent.new Side.ask 11 (bidKey 1000 5) 1 22
        (askKey 900 7) 2 900 4 0 0)) := by decide

/-- C1 (amended): a failed *Fill* push aborts the whole invocation with
`EventQueueFull`; a failed *Out* push is silently discarded — whenever the
fill push and the two book mutations succeed, the invocation reports the
match as executed regardless of whether the Out pushes fit in the queue. -/
theorem C1_failure_amended (m : Market) (bids asks : Book) (q : EventQueue)
    (r : MatchResult)
    (hact : m.is_active = true)
    (hfind : find_match bids asks m.baseLotSize m.quoteLotSize = some r) :
    (∀ limit, 0 < limit → q.capacity ≤ q.count →
      handler m bids asks q limit = .error .EventQueueFull) ∧
    (∀ bids1 asks1, bidBookStep bids r = .ok bids1 →
      askBookStep asks r = .ok asks1 → q.count < q.capacity →
      runMatches (handler m bids asks q 1) = some 1) := by
  constructor
  · intro limit hpos hfull
    unfold handler
    rw [if_neg (by omega), if_neg (by simp [hact])]
    cases limit with
    | zero => exact absurd hpos (by omega)
    | succ l =>
      rw [matchLoop]
      simp only [hfind]
      have hpf : push_fill_event q (fillOf m r) = .error .EventQueueFull := by
        unfold push_fill_event pushRecord
        rw [if_pos (Or.inr hfull)]
      simp only [hpf]
  · intro bids1 asks1 hb ha hroom
    unfold handler
    rw [if_neg (by omega), if_neg (by simp [hact])]
    show runMatches (matchLoop m (Nat.succ 0) bids asks q 0) = some 1
    rw [matchLoop]
    simp only [hfind]
    cases hpf : push_fill_event q (fillOf m r) with
    | error e =>
      exfalso
      unfold push_fill_event pushRecord at hpf
      rw [if_neg (by omega)] at hpf
      exact Except.noConfusion hpf
    | ok q2 =>
      simp only [hpf]
      obtain ⟨q3, hsb⟩ := settleBid_of_book bids q2 r bids1 hb
      simp only [hsb]
      obtain ⟨q4, hsa⟩ := settleAsk_of_book asks q3 r asks1 ha
      simp only [hsa]
      rfl

/-- C1 witness: the fixture pair under a full queue aborts; under a roomy
queue the match is reported even though both Out pushes are exercised. -/
theorem C1_witness :
    handler mkt1 bBook1 aBook1 fullQueue 1 = .error .EventQueueFull ∧
    runMatches (handler mkt1 bBook1 aBook1 (mkQueue 10) 1) = some 1 := by
  have h1 := C1_failure_amended mkt1 bBook1 aBook1 fullQueue matchR1
    (by decide) (by decide)
  have h2 := C1_failure_amended mkt1 bBook1 aBook1 (mkQueue 10) matchR1
    (by decide) (by decide)
  exact ⟨h1.1 1 (by decide) (by decide),
    h2.2 (Book.mk 0 0 SENTINEL [Node.free SENTINEL])
      (Book.mk 0 0 SENTINEL [Node.free SENTINEL])
      rfl rfl (by decide)⟩

/-!
## Claim C3 — fee arithmetic failures
-/

/-- C3 counterexample: with `base_lot_size = 0` (the spec's own example of an
invariant violation) and a 100 bps taker fee, the invocation does *not* fail
with an arithmetic error: it succeeds, substituting 0 for the notional and
hence 0 for the taker fee in the emitted Fill event. -/
theorem C3_counterexample :
    mkt0.baseLotSize = 0 ∧
    mkt0.takerFeeBps = 100 ∧
    runMatches (handler mkt0 bBook1 aBook1 (mkQueue 10) 1) = some 1 ∧
    runSlot (handler mkt0 bBook1 aBook1 (mkQueue 10) 1) 0 =
      some (QEvent.fill (FillEvent.new Side.ask 11 (bidKey 1000 5) 1 22
        (askKey 900 7) 2 900 4 0 0)) ∧
    notionalOf mkt0 4 900 = 0 := by decide

/-- Helper: a failed push always reports `EventQueueFull`. -/
theorem pushRecord_error (q : EventQueue) (e : QEvent) (err : MatchbookError)
    (h : pushRecord q e = .error err) : err = .EventQueueFull := by
  unfold pushRecord at h
  by_cases hc : q.capacity = 0 ∨ q.capacity ≤ q.count
  · rw [if_pos hc] at h
    injection h with h
    exact h.symm
  · rw [if_neg hc] at h
    exact Except.noConfusion h

/-- Helper: a failed removal always reports `OrderNotFound`. -/
theorem remove_order_error (b : Book) (k : Nat) (e : MatchbookError)
    (h : remove_order b k = .error e) : e = .OrderNotFound := by
  unfold remove_order at h
  cases hidx : findLeafIdx b k with
  | none =>
    rw [hidx] at h
    injection h with h
    exact h.symm
  | some i =>
    simp only [hidx] at h
    exact Except.noConfusion h

/-- Helper: a failed quantity update always reports `OrderNotFound`. -/
theorem update_order_error (b : Book) (k v : Nat) (e : MatchbookError)
    (h : update_order_quantity b k v = .error e) : e = .OrderNotFound := by
  unfold update_order_quantity at h
  cases hidx : findLeafIdx b k with
  | none =>
    rw [hidx] at h
    injection h with h
    exact h.symm
  | some i =>
    simp only [hidx] at h
    cases hg : b.nodes.get? i with
    | none =>
      simp only [hg] at h
      injection h with h
      exact h.symm
    | some n =>
      simp only [hg] at h
      cases n with
      | inner => injection h with h; exact h.symm
      | free next => injection h with h; exact h.symm
      | leaf key owner qy c => exact Except.noConfusion h

/-- Helper: a failed bid settlement always reports `OrderNotFound`. -/
theorem settleBid_error (bids : Book) (q : EventQueue) (r : MatchResult)
    (e : MatchbookError) (h : settleBid bids q r = .error e) :
    e = .OrderNotFound := by
  unfold settleBid at h
  by_cases hrem : r.bidRemaining = 0
  · rw [if_pos hrem] at h
    cases hro : remove_order bids r.bidOrderId with
    | error e0 =>
      simp only [hro] at h
      injection h with h
      subst h
      exact remove_order_error bids r.bidOrderId e0 hro
    | ok b2 =>
      simp only [hro] at h
      cases hp : push_out_event q (OutEvent.new Side.bid r.bidOwner r.bidOrderId
          r.bidClientOrderId 0 0 OutReason.filled) with
      | ok q2 => simp only [hp] at h; exact Except.noConfusion h
      | error e0 => simp only [hp] at h; exact Except.noConfusion h
  · rw [if_neg hrem] at h
    cases hro : update_order_quantity bids r.bidOrderId r.bidRemaining with
    | error e0 =>
      simp only [hro] at h
      injection h with h
      subst h
      exact update_order_error bids r.bidOrderId r.bidRemaining e0 hro
    | ok b2 => simp only [hro] at h; exact Except.noConfusion h

/-- Helper: a failed ask settlement always reports `OrderNotFound`. -/
theorem settleAsk_error (asks : Book) (q : EventQueue) (r : MatchResult)
    (e : MatchbookError) (h : settleAsk asks q r = .error e) :
    e = .OrderNotFound := by
  unfold settleAsk at h
  by_cases hrem : r.askRemaining = 0
  · rw [if_pos hrem] at h
    cases hro : remove_order asks r.askOrderId with
    | error e0 =>
      simp only [hro] at h
      injection h with h
      subst h
      exact remove_order_error asks r.askOrderId e0 hro
    | ok a2 =>
      simp only [hro] at h
      cases hp : push_out_event q (OutEvent.new Side.ask r.askOwner r.askOrderId
          r.askClientOrderId 0 0 OutReason.filled) with
      | ok q2 => simp only [hp] at h; exact Except.noConfusion h
      | error e0 => simp only [hp] at h; exact Except.noConfusion h
  · rw [if_neg hrem] at h
    cases hro : update_order_quantity asks r.askOrderId r.askRemaining with
    | error e0 =>
      simp only [hro] at h
      injection h with h
      subst h
      exact update_order_error asks r.askOrderId r.askRemaining e0 hro
    | ok a2 => simp only [hro] at h; exact Except.noConfusion h

/-- Helper: the match loop can only fail with `EventQueueFull` (fill push) or
`OrderNotFound` (remove/update). -/
theorem matchLoop_error (m : Market) :
    ∀ (limit : Nat) (bids asks : Book) (q : EventQueue) (cnt : Nat)
      (e : MatchbookError),
      matchLoop m limit bids asks q cnt = .error e →
      e = .EventQueueFull ∨ e = .OrderNotFound := by
  intro limit
  induction limit with
  | zero =>
    intro bids asks q cnt e h
    unfold matchLoop at h
    exact Except.noConfusion h
  | succ l ih =>
    intro bids asks q cnt e h
    rw [matchLoop] at h
    cases hfm : find_match bids asks m.baseLotSize m.quoteLotSize with
    | none => simp only [hfm] at h; exact Except.noConfusion h
    | some r =>
      simp only [hfm] at h
      cases hpf : push_fill_event q (fillOf m r) with
      | error e0 =>
        simp only [hpf] at h
        injection h with h
        subst h
        exact Or.inl (pushRecord_error q (QEvent.fill (fillOf m r)) e0 hpf)
      | ok q2 =>
        simp only [hpf] at h
        cases hsb : settleBid bids q2 r with
        | error e0 =>
          simp only [hsb] at h
          injection h with h
          subst h
          exact Or.inr (settleBid_error bids q2 r e0 hsb)
        | ok p =>
          obtain ⟨bids2, q3⟩ := p
          simp only [hsb] at h
          cases hsa : settleAsk asks q3 r with
          | error e0 =>
            simp only [hsa] at h
            injection h with h
            subst h
            exact Or.inr (settleAsk_error asks q3 r e0 hsa)
          | ok p2 =>
            obtain ⟨asks2, q4⟩ := p2
            simp only [hsa] at h
            exact ih bids2 asks2 q4 (sadd8 cnt 1) e h

/-- C3 (amended): the fee computation substitutes 0 (`unwrap_or(0)`) for the
notional on division by zero (`base_lot_size = 0`) or on 64-bit overflow of
`quantity * price`, and the invocation continues; a match invocation never
fails with an arithmetic error — its only failure modes are
`InvalidQuantity`, `MarketNotActive`, `EventQueueFull` and `OrderNotFound`. -/
theorem C3_fee_default_amended (m : Market) (bids asks : Book) (q : EventQueue)
    (limit quantity price : Nat) :
    (m.baseLotSize = 0 → notionalOf m quantity price = 0) ∧
    (u64Max < quantity * price → notionalOf m quantity price = 0) ∧
    (∀ e, handler m bids asks q limit = .error e →
      e = .InvalidQuantity ∨ e = .MarketNotActive ∨ e = .EventQueueFull ∨
        e = .OrderNotFound) := by
  refine ⟨?_, ?_, ?_⟩
  · intro h0
    unfold notionalOf
    cases hx : (checked_mul64 quantity price).bind
        (fun v => checked_mul64 v m.quoteLotSize) with
    | none => rfl
    | some v =>
      show (checked_div64 v m.baseLotSize).getD 0 = 0
      rw [h0]
      rfl
  · intro hov
    unfold notionalOf checked_mul64
    rw [if_neg (by omega)]
    rfl
  · intro e he
    unfold handler at he
    by_cases h0 : limit = 0
    · rw [if_pos h0] at he
      injection he with he
      exact Or.inl he.symm
    · rw [if_neg h0] at he
      by_cases hact : m.is_active = true
      · rw [if_neg (by simp [hact])] at he
        rcases matchLoop_error m limit bids asks q 0 e he with h | h
        · exact Or.inr (Or.inr (Or.inl h))
        · exact Or.inr (Or.inr (Or.inr h))
      · rw [if_pos (by simp [hact])] at he
        injection he with he
        exact Or.inr (Or.inl he.symm)

/-- C3 witness: concrete zero-lot-size notional and the concrete full-queue
failure, which is `EventQueueFull`, not an arithmetic error. -/
theorem C3_witness :
    notionalOf mkt0 3 7 = 0 ∧
    (MatchbookError.EventQueueFull = MatchbookError.InvalidQuantity ∨
     MatchbookError.EventQueueFull = MatchbookError.MarketNotActive ∨
     MatchbookError.EventQueueFull = MatchbookError.EventQueueFull ∨
     MatchbookError.EventQueueFull = MatchbookError.OrderNotFound) := by
  have h1 := C3_fee_default_amended mkt0 bBook1 aBook1 fullQueue 1 3 7
  have h2 := C3_fee_default_amended mkt1 bBook1 aBook1 fullQueue 1 3 7
  exact ⟨h1.1 rfl, h2.2.2 MatchbookError.EventQueueFull rfl⟩

/-!
## Claim C10 — contents of emitted Out events
-/

/-- Helper: a successful push changes slots only by writing the pushed
record. -/
theorem pushRecord_slots (q : EventQueue) (e : QEvent) (q1 : EventQueue)
    (h : pushRecord q e = .ok q1) :
    ∀ i, q1.slots i = q.slots i ∨ q1.slots i = e := by
  unfold pushRecord at h
  by_cases hc : q.capacity = 0 ∨ q.capacity ≤ q.count
  · rw [if_pos hc] at h
    exact Except.noConfusion h
  · rw [if_neg hc] at h
    injection h with h
    subst h
    intro i
    by_cases hi : i = (q.head + q.count) % q.capacity
    · right; simp [hi]
    · left; simp [hi]

/-- Helper: the slot-change property composes across queue steps. -/
theorem slotsOkTrans {qa qb qc : EventQueue}
    (h1 : ∀ i, qb.slots i = qa.slots i ∨ emittedOutOk (qb.slots i) = true)
    (h2 : ∀ i, qc.slots i = qb.slots i ∨ emittedOutOk (qc.slots i) = true) :
    ∀ i, qc.slots i = qa.slots i ∨ emittedOutOk (qc.slots i) = true := by
  intro i
  rcases h2 i with h | h
  · rcases h1 i with h0 | h0
    · left; rw [h, h0]
    · right; rw [h]; exact h0
  · right; exact h

/-- Helper: the bid settlement only ever writes an Out record with zero
released balances and reason `Filled`. -/
theorem settleBid_slots (bids : Book) (q : EventQueue) (r : MatchResult)
    (b1 : Book) (q1 : EventQueue) (h : settleBid bids q r = .ok (b1, q1)) :
    ∀ i, q1.slots i = q.slots i ∨ emittedOutOk (q1.slots i) = true := by
  unfold settleBid at h
  by_cases hrem : r.bidRemaining = 0
  · rw [if_pos hrem] at h
    cases hro : remove_order bids r.bidOrderId with
    | error e => simp only [hro] at h; exact Except.noConfusion h
    | ok b2 =>
      simp only [hro] at h
      cases hp : push_out_event q (OutEvent.new Side.bid r.bidOwner r.bidOrderId
          r.bidClientOrderId 0 0 OutReason.filled) with
      | ok q2 =>
        simp only [hp] at h
        injection h with h
        rw [Prod.mk.injEq] at h
        intro i
        rw [← h.2]
        rcases pushRecord_slots q _ q2 hp i with h0 | h0
        · left; exact h0
        · right; rw [h0]; rfl
      | error e =>
        simp only [hp] at h
        injection h with h
        rw [Prod.mk.injEq] at h
        intro i
        rw [← h.2]
        left; rfl
  · rw [if_neg hrem] at h
    cases hro : update_order_quantity bids r.bidOrderId r.bidRemaining with
    | error e => simp only [hro] at h; exact Except.noConfusion h
    | ok b2 =>
      simp only [hro] at h
      injection h with h
      rw [Prod.mk.injEq] at h
      intro i
      rw [← h.2]
      left; rfl

/-- Helper: the ask settlement only ever writes an Out record with zero
released balances and reason `Filled`. -/
theorem settleAsk_slots (asks : Book) (q : EventQueue) (r : MatchResult)
    (a1 : Book) (q1 : EventQueue) (h : settleAsk asks q r = .ok (a1, q1)) :
    ∀ i, q1.slots i = q.slots i ∨ emittedOutOk (q1.slots i) = true := by
  unfold settleAsk at h
  by_cases hrem : r.askRemaining = 0
  · rw [if_pos hrem] at h
    cases hro : remove_order asks r.askOrderId with
    | error e => simp only [hro] at h; exact Except.noConfusion h
    | ok a2 =>
      simp only [hro] at h
      cases hp : push_out_event q (OutEvent.new Side.ask r.askOwner r.askOrderId
          r.askClientOrderId 0 0 OutReason.filled) with
      | ok q2 =>
        simp only [hp] at h
        injection h with h
        rw [Prod.mk.injEq] at h
        intro i
        rw [← h.2]
        rcases pushRecord_slots q _ q2 hp i with h0 | h0
        · left; exact h0
        · right; rw [h0]; rfl
      | error e =>
        simp only [hp] at h
        injection h with h
        rw [Prod.mk.injEq] at h
        intro i
        rw [← h.2]
        left; rfl
  · rw [if_neg hrem] at h
    cases hro : update_order_quantity asks r.askOrderId r.askRemaining with
    | error e => simp only [hro] at h; exact Except.noConfusion h
    | ok a2 =>
      simp only [hro] at h
      injection h with h
      rw [Prod.mk.injEq] at h
      intro i
      rw [← h.2]
      left; rfl

/-- Helper: across a whole match loop, every queue slot either keeps its
prior content or holds a record the loop wrote: a Fill, or an Out with zero
released balances and reason `Filled`. -/
theorem matchLoop_slots (m : Market) :
    ∀ (limit : Nat) (bids asks : Book) (q : EventQueue) (cnt n : Nat)
      (b1 a1 : Book) (q1 : EventQueue),
      matchLoop m limit bids asks q cnt = .ok (n, b1, a1, q1) →
      ∀ i, q1.slots i = q.slots i ∨ emittedOutOk (q1.slots i) = true := by
  intro limit
  induction limit with
  | zero =>
    intro bids asks q cnt n b1 a1 q1 h
    unfold matchLoop at h
    injection h with h
    rw [Prod.mk.injEq] at h
    have h2 := h.2
    rw [Prod.mk.injEq] at h2
    have h3 := h2.2
    rw [Prod.mk.injEq] at h3
    intro i
    rw [← h3.2]
    left; rfl
  | succ l ih =>
    intro bids asks q cnt n b1 a1 q1 h
    rw [matchLoop] at h
    cases hfm : find_match bids asks m.baseLotSize m.quoteLotSize with
    | none =>
      simp only [hfm] at h
      injection h with h
      rw [Prod.mk.injEq] at h
      have h2 := h.2
      rw [Prod.mk.injEq] at h2
      have h3 := h2.2
      rw [Prod.mk.injEq] at h3
      intro i
      rw [← h3.2]
      left; rfl
    | some r =>
      simp only [hfm] at h
      cases hpf : push_fill_event q (fillOf m r) with
      | error e => simp only [hpf] at h; exact Except.noConfusion h
      | ok q2 =>
        simp only [hpf] at h
        cases hsb : settleBid bids q2 r with
        | error e => simp only [hsb] at h; exact Except.noConfusion h
        | ok p =>
          obtain ⟨bids2, q3⟩ := p
          simp only [hsb] at h
          cases hsa : settleAsk asks q3 r with
          | error e => simp only [hsa] at h; exact Except.noConfusion h
          | ok p2 =>
            obtain ⟨asks2, q4⟩ := p2
            simp only [hsa] at h
            have hstep1 : ∀ i, q2.slots i = q.slots i ∨
                emittedOutOk (q2.slots i) = true := by
              intro i
              rcases pushRecord_slots q (QEvent.fill (fillOf m r)) q2 hpf i
                with h0 | h0
              · left; exact h0
              · right; rw [h0]; rfl
            have hstep2 := settleBid_slots bids q2 r bids2 q3 hsb
            have hstep3 := settleAsk_slots asks q3 r asks2 q4 hsa
            have hrec := ih bids2 asks2 q4 (sadd8 cnt 1) n b1 a1 q1 h
            exact slotsOkTrans (slotsOkTrans (slotsOkTrans hstep1 hstep2)
              hstep3) hrec

/-- C10: every Out event the match handler writes into the queue carries
`base_released = 0`, `quote_released = 0` and `reason = Filled`: after a
successful invocation, every queue slot either kept its prior content or
holds a loop-written record — a Fill, or an Out with those exact fields.
Matching never reports released balances through Out events. -/
theorem C10_out_events_zeroed (m : Market) (bids asks : Book) (q : EventQueue)
    (limit n : Nat) (b1 a1 : Book) (q1 : EventQueue)
    (hok : handler m bids asks q limit = .ok (n, b1, a1, q1)) :
    ∀ i, q1.slots i = q.slots i ∨ emittedOutOk (q1.slots i) = true := by
  unfold handler at hok
  by_cases h0 : limit = 0
  · rw [if_pos h0] at hok
    exact Except.noConfusion hok
  · rw [if_neg h0] at hok
    by_cases hact : m.is_active = true
    · rw [if_neg (by simp [hact])] at hok
      exact matchLoop_slots m limit bids asks q 0 n b1 a1 q1 hok
    · rw [if_pos (by simp [hact])] at hok
      exact Except.noConfusion hok

/-- C10 witness: in the concrete fixture run, queue slot 1 holds the bid's
Out event — zero released balances, reason `Filled`. -/
theorem C10_witness :
    ((handler mkt1 bBook1 aBook1 (mkQueue 10) 1).toOption.getD
        dfltState).2.2.2.slots 1 = (mkQueue 10).slots 1 ∨
      emittedOutOk (((handler mkt1 bBook1 aBook1 (mkQueue 10) 1).toOption.getD
        dfltState).2.2.2.slots 1) = true := by
  have hok : handler mkt1 bBook1 aBook1 (mkQueue 10) 1 =
      .ok (((handler mkt1 bBook1 aBook1 (mkQueue 10) 1).toOption.getD dfltState).1,
        ((handler mkt1 bBook1 aBook1 (mkQueue 10) 1).toOption.getD dfltState).2.1,
        ((handler mkt1 bBook1 aBook1 (mkQueue 10) 1).toOption.getD dfltState).2.2.1,
        ((handler mkt1 bBook1 aBook1 (mkQueue 10) 1).toOption.getD dfltState).2.2.2) := rfl
  exact C10_out_events_zeroed mkt1 bBook1 aBook1 (mkQueue 10) 1 _ _ _ _ hok 1
